import Mathlib

/-!
Shallow embedding of `src/mesh.js` (the mesh physics library of web-goo),
together with proofs of the spec's testable properties about it.

Modelling conventions, used throughout:

* All numbers are rationals.  The source computes with IEEE doubles; the
  claims under verification are exact algebraic/structural properties, so the
  embedding uses exact arithmetic.  Decimal literals (`0.5`, `1e-6`, ...)
  denote the exact rationals they spell.
* `Math.hypot(dx, dy)` is `sqrtFn (dx * dx + dy * dy)` for an unspecified
  square-root function `sqrtFn : ℚ → ℚ` threaded explicitly through every
  definition that calls it.  Theorems that depend on actual values of the
  square root take hypotheses about `sqrtFn` at the points where it is
  evaluated; theorems with no such hypothesis hold for every square-root
  function.
* JavaScript object identity (`===` between node references) is modelled by
  a `ℕ`-valued `id` field on nodes; links and angle constraints store the
  `id`s of the node objects they reference, and a field write through a
  reference becomes `Mesh.setNode`.  A mesh built through the source API has
  pairwise distinct node ids, which enters theorems as a `Nodup` hypothesis.
-/

namespace WebGoo

/-- A point mass (`class Node` in mesh.js).  The `id` field stands for the
JavaScript object identity; all other fields are the constructor's fields
`x, y, px, py, ax, ay, r, mass, pinned`. -/
structure Node where
  id : ℕ
  x : ℚ
  y : ℚ
  px : ℚ
  py : ℚ
  ax : ℚ
  ay : ℚ
  r : ℚ
  mass : ℚ
  pinned : Bool
deriving DecidableEq, Inhabited

/-- A distance constraint (`class Link` in mesh.js).  `a`, `b` are the ids of
the two endpoint node objects; `rest` is the rest length fixed at creation;
`stiffness` the relaxation coefficient. -/
structure Link where
  a : ℕ
  b : ℕ
  rest : ℚ
  stiffness : ℚ
deriving DecidableEq, Inhabited

/-- `class AngleConstraint` in mesh.js: `b` is the center node, `a` and `c`
the outer nodes; `restDistance` is the initial outer-node separation. -/
structure AngleConstraint where
  a : ℕ
  b : ℕ
  c : ℕ
  restDistance : ℚ
  stiffness : ℚ
deriving DecidableEq, Inhabited

/-- `class Mesh` in mesh.js: configuration plus the three owned collections.
Field defaults mirror the constructor's defaults (`groundY` default is
`bounds.height - 90 = 510`). -/
structure Mesh where
  gravityX : ℚ := 0
  gravityY : ℚ := 175
  damping : ℚ := 0.995
  solverIterations : ℕ := 6
  stiffness : ℚ := 0.25
  wallRestitution : ℚ := 0.25
  groundRestitution : ℚ := 0.18
  friction : ℚ := 0.85
  boundsWidth : ℚ := 800
  boundsHeight : ℚ := 600
  groundY : ℚ := 510
  defaultNodeRadius : ℚ := 8
  defaultNodeMass : ℚ := 15
  nodes : List Node := []
  links : List Link := []
  angleConstraints : List AngleConstraint := []
deriving DecidableEq, Inhabited

/-- `Math.hypot(dx, dy)`, with the square root left abstract. -/
def hypot (sqrtFn : ℚ → ℚ) (dx dy : ℚ) : ℚ := sqrtFn (dx * dx + dy * dy)

/-- The JavaScript idiom `d || 1e-6` guarding a division: `0` is the only
falsy rational value. -/
def orEps (d : ℚ) : ℚ := if d = 0 then 1e-6 else d

/-- Dereference a node id: the node object a stored reference points at.
Under referential integrity (every stored id names a mesh node) the
`getD default` branch is unreachable. -/
def Mesh.findNode (s : Mesh) (i : ℕ) : Node :=
  (s.nodes.find? (fun n => n.id == i)).getD default

/-- A field write through a node reference: replace the node object with
identity `i` by `v`. -/
def Mesh.setNode (s : Mesh) (i : ℕ) (v : Node) : Mesh :=
  { s with nodes := s.nodes.map (fun n => if n.id == i then v else n) }

/-- The node ids of the mesh, in storage order. -/
def Mesh.ids (s : Mesh) : List ℕ := s.nodes.map Node.id

/-- `Node.applyForce(fx, fy)`. -/
def Node.applyForce (n : Node) (fx fy : ℚ) : Node :=
  { n with ax := n.ax + fx / n.mass, ay := n.ay + fy / n.mass }

/-- `Node.integrate(dt, damping)`. -/
def Node.integrate (n : Node) (dt damping : ℚ) : Node :=
  if n.pinned then
    { n with px := n.x, py := n.y, ax := 0, ay := 0 }
  else
    let vx := (n.x - n.px) * damping
    let vy := (n.y - n.py) * damping
    let newX := n.x + vx + n.ax * dt * dt
    let newY := n.y + vy + n.ay * dt * dt
    { n with px := n.x, py := n.y, x := newX, y := newY, ax := 0, ay := 0 }

/-- `Link.satisfy()`, as a transformation of the owning mesh (the source
mutates the two endpoint objects in place). -/
def Link.satisfy (sqrtFn : ℚ → ℚ) (l : Link) (s : Mesh) : Mesh :=
  let a := s.findNode l.a
  let b := s.findNode l.b
  let dx := b.x - a.x
  let dy := b.y - a.y
  let d := orEps (hypot sqrtFn dx dy)
  let diff := (d - l.rest) / d
  let factor := 0.5 * l.stiffness
  let ox := dx * diff * factor
  let oy := dy * diff * factor
  let s1 := if a.pinned then s else s.setNode l.a { a with x := a.x + ox, y := a.y + oy }
  if b.pinned then s1 else s1.setNode l.b { b with x := b.x - ox, y := b.y - oy }

/-- `AngleConstraint.satisfy()`. -/
def AngleConstraint.satisfy (sqrtFn : ℚ → ℚ) (t : AngleConstraint) (s : Mesh) : Mesh :=
  let a := s.findNode t.a
  let c := s.findNode t.c
  let dx := c.x - a.x
  let dy := c.y - a.y
  let currentDist := orEps (hypot sqrtFn dx dy)
  let diff := (currentDist - t.restDistance) / currentDist
  let correction := diff * t.stiffness * 0.25
  let correctionX := dx * correction
  let correctionY := dy * correction
  if !a.pinned && !c.pinned then
    (s.setNode t.a
        { a with x := a.x + correctionX * 0.5, y := a.y + correctionY * 0.5 }).setNode t.c
      { c with x := c.x - correctionX * 0.5, y := c.y - correctionY * 0.5 }
  else s

/-- `Mesh._applyWallBounds(node)` (left, right and top walls; no floor). -/
def Mesh.applyWallBounds (s : Mesh) (n : Node) : Node :=
  if n.pinned then n
  else
    let n1 :=
      if n.x < n.r then
        { n with x := n.r, px := n.r + (n.r - n.px) * (-s.wallRestitution) }
      else n
    let n2 :=
      if n1.x > s.boundsWidth - n1.r then
        { n1 with x := s.boundsWidth - n1.r,
                  px := (s.boundsWidth - n1.r) +
                    ((s.boundsWidth - n1.r) - n1.px) * (-s.wallRestitution) }
      else n1
    if n2.y < n2.r then
      { n2 with y := n2.r, py := n2.r + (n2.r - n2.py) * (-s.wallRestitution) }
    else n2

/-- `Mesh._applyGroundCollision(node)`.  The implicit velocity `vy` is read
after the position correction `node.y = groundY - r`, exactly as in the
source. -/
def Mesh.applyGroundCollision (s : Mesh) (n : Node) : Node :=
  if n.pinned then n
  else
    let penetration := n.y - (s.groundY - n.r)
    if penetration > 0 then
      let ny := s.groundY - n.r
      let vx := n.x - n.px
      let vy := ny - n.py
      if vy > 0 then
        { n with y := ny, px := n.x - vx * s.friction, py := ny - (-vy * s.groundRestitution) }
      else
        { n with y := ny }
    else n

/-- `Mesh._lineIntersection(p1..p4)`: parametric segment intersection.
Returns `(x, y, t, u)` like the source's `{x, y, t, u}` object. -/
def lineIntersection (p1x p1y p2x p2y p3x p3y p4x p4y : ℚ) : Option (ℚ × ℚ × ℚ × ℚ) :=
  let denom := (p1x - p2x) * (p3y - p4y) - (p1y - p2y) * (p3x - p4x)
  if |denom| < 1e-10 then none
  else
    let t := ((p1x - p3x) * (p3y - p4y) - (p1y - p3y) * (p3x - p4x)) / denom
    let u := -((p1x - p2x) * (p1y - p3y) - (p1y - p2y) * (p1x - p3x)) / denom
    if 0 ≤ t ∧ t ≤ 1 ∧ 0 ≤ u ∧ u ≤ 1 then
      some (p1x + t * (p2x - p1x), p1y + t * (p2y - p1y), t, u)
    else none

/-- `Mesh.wouldLinkCross(fromNode, toNode)`: does the hypothetical segment
cross any existing link that shares no endpoint with it? -/
def Mesh.wouldLinkCross (s : Mesh) (fromN toN : Node) : Bool :=
  s.links.any (fun l =>
    if l.a == fromN.id || l.a == toN.id || l.b == fromN.id || l.b == toN.id then false
    else
      let a := s.findNode l.a
      let b := s.findNode l.b
      (lineIntersection fromN.x fromN.y toN.x toN.y a.x a.y b.x b.y).isSome)

/-- `Mesh._pushNodeFromPoint(node, px, py, strength)`. -/
def Mesh.pushNodeFromPoint (sqrtFn : ℚ → ℚ) (s : Mesh) (i : ℕ) (px py strength : ℚ) : Mesh :=
  let n := s.findNode i
  if n.pinned then s
  else
    let dx := n.x - px
    let dy := n.y - py
    let dist := orEps (hypot sqrtFn dx dy)
    s.setNode i { n with x := n.x + dx / dist * strength, y := n.y + dy / dist * strength }

/-- `Mesh._pushLinksApart(link1, link2, intersection)`. -/
def Mesh.pushLinksApart (sqrtFn : ℚ → ℚ) (s : Mesh) (l1 l2 : Link) (ix iy : ℚ) : Mesh :=
  let a1 := s.findNode l1.a
  let b1 := s.findNode l1.b
  let a2 := s.findNode l2.a
  let b2 := s.findNode l2.b
  let minDistToNode :=
    min (min (hypot sqrtFn (a1.x - ix) (a1.y - iy)) (hypot sqrtFn (b1.x - ix) (b1.y - iy)))
        (min (hypot sqrtFn (a2.x - ix) (a2.y - iy)) (hypot sqrtFn (b2.x - ix) (b2.y - iy)))
  if minDistToNode > s.defaultNodeRadius then
    ((((s.pushNodeFromPoint sqrtFn l1.a ix iy 0.3).pushNodeFromPoint sqrtFn
          l1.b ix iy 0.3).pushNodeFromPoint sqrtFn
        l2.a ix iy 0.3).pushNodeFromPoint sqrtFn l2.b ix iy 0.3)
  else s

/-- The index pairs `(i, j)` with `i < j` visited by the double loop of
`Mesh._preventLinkCrossings`, in loop order. -/
def pairList (k : ℕ) : List (ℕ × ℕ) :=
  (List.range k).flatMap (fun i => ((List.range k).filter (fun j => i < j)).map (fun j => (i, j)))

/-- `Mesh._preventLinkCrossings()`.  The links collection is not modified by
the pass, only node positions, so the indices stay valid throughout. -/
def Mesh.preventLinkCrossings (sqrtFn : ℚ → ℚ) (s : Mesh) : Mesh :=
  (pairList s.links.length).foldl
    (fun st ij =>
      match st.links[ij.1]?, st.links[ij.2]? with
      | some link1, some link2 =>
        if link1.a == link2.a || link1.a == link2.b ||
            link1.b == link2.a || link1.b == link2.b then st
        else
          let a1 := st.findNode link1.a
          let b1 := st.findNode link1.b
          let a2 := st.findNode link2.a
          let b2 := st.findNode link2.b
          match lineIntersection a1.x a1.y b1.x b1.y a2.x a2.y b2.x b2.y with
          | some (ix, iy, _, _) => st.pushLinksApart sqrtFn link1 link2 ix iy
          | none => st
      | _, _ => st)
    s

/-- The gravity phase at the top of `Mesh.step`: every node receives the
force `gravity × mass` through `applyForce`. -/
def Mesh.applyGravity (s : Mesh) : Mesh :=
  { s with nodes := s.nodes.map (fun n => n.applyForce (s.gravityX * n.mass) (s.gravityY * n.mass)) }

/-- The wall-collision loop of a solver iteration:
`for (const node of this.nodes) this._applyWallBounds(node)`. -/
def Mesh.wallPhase (s : Mesh) : Mesh :=
  { s with nodes := s.nodes.map s.applyWallBounds }

/-- The ground-collision loop of a solver iteration. -/
def Mesh.groundPhase (s : Mesh) : Mesh :=
  { s with nodes := s.nodes.map s.applyGroundCollision }

/-- The distance-constraint loop of a solver iteration:
`for (const link of this.links) link.satisfy()`. -/
def Mesh.linkPhase (sqrtFn : ℚ → ℚ) (s : Mesh) : Mesh :=
  s.links.foldl (fun st l => l.satisfy sqrtFn st) s

/-- The angle-constraint loop of a solver iteration. -/
def Mesh.anglePhase (sqrtFn : ℚ → ℚ) (s : Mesh) : Mesh :=
  s.angleConstraints.foldl (fun st t => t.satisfy sqrtFn st) s

/-- The Verlet-integration loop of `Mesh.step`:
`for (const node of this.nodes) node.integrate(deltaTime, this.damping)`. -/
def Mesh.integratePhase (s : Mesh) (dt : ℚ) : Mesh :=
  { s with nodes := s.nodes.map (fun n => n.integrate dt s.damping) }

/-- One constraint-solving iteration of `Mesh.step` (the body of the
`solverIterations` loop): wall bounds, ground collisions, crossing
prevention, distance links, angle constraints, crossing prevention again. -/
def Mesh.solverPass (sqrtFn : ℚ → ℚ) (s0 : Mesh) : Mesh :=
  (((((s0.wallPhase).groundPhase).preventLinkCrossings sqrtFn).linkPhase
      sqrtFn).anglePhase sqrtFn).preventLinkCrossings sqrtFn

/-- `Mesh.step(deltaTime)`: gravity, Verlet integration, then
`solverIterations` relaxation iterations. -/
def Mesh.step (sqrtFn : ℚ → ℚ) (s0 : Mesh) (dt : ℚ) : Mesh :=
  let s1 := s0.applyGravity
  let s2 := s1.integratePhase dt
  (Mesh.solverPass sqrtFn)^[s2.solverIterations] s2

/-- A sequence of `step()` calls, one per element of `dts`. -/
def Mesh.stepSeq (sqrtFn : ℚ → ℚ) (s : Mesh) (dts : List ℚ) : Mesh :=
  dts.foldl (Mesh.step sqrtFn) s

/-- The `connectedNodes` list collected at the top of `Mesh.removeNode`: for
every link touching node `i`, the opposite endpoint, in link-storage
order. -/
def connectedIds (links : List Link) (i : ℕ) : List ℕ :=
  links.filterMap (fun l => if l.a == i then some l.b else if l.b == i then some l.a else none)

/-- The `connectionCount` of `removeNode`: the number of links incident to
node `i`. -/
def Mesh.linkCount (s : Mesh) (i : ℕ) : ℕ :=
  (s.links.filter (fun l => l.a == i || l.b == i)).length

/-- The non-recursive body of `Mesh.removeNode`: drop all links and angle
constraints referencing node `i` and drop the node itself
(`indexOf`/`splice(idx, 1)` removes the first — under distinct ids, the
only — occurrence; absent node is a no-op with `indexOf = -1`). -/
def Mesh.purgeNode (s : Mesh) (i : ℕ) : Mesh :=
  { s with
    links := s.links.filter (fun l => !(l.a == i) && !(l.b == i)),
    angleConstraints :=
      s.angleConstraints.filter (fun t => !(t.a == i) && !(t.b == i) && !(t.c == i)),
    nodes := s.nodes.eraseP (fun nd => nd.id == i) }

/-- `Mesh.removeNode(node)` with explicit recursion fuel (structural
recursion on the fuel, so concrete instances evaluate).  The `fuel + 1`
case is the source body: collect `connectedNodes`, purge the node and its
constraints, then run the `for (const connectedNode of connectedNodes)`
loop — a left fold over the collected list threading the mutated mesh —
which recounts each collected neighbour's live links and recursively
removes it when it has fewer than 2.  The source recursion terminates
because every nested call starts from a strictly smaller mesh; theorems
below hold for every fuel beyond that measure
(`s.nodes.length + s.links.length < fuel`), which `Mesh.removeNode`
instantiates. -/
def removeNodeFuel : ℕ → ℕ → Mesh → Mesh
  | 0, _, s => s
  | fuel + 1, i, s =>
    (connectedIds s.links i).foldl
      (fun st c => if st.linkCount c < 2 then removeNodeFuel fuel c st else st)
      (s.purgeNode i)

/-- One iteration of the `removeNode` neighbour loop. -/
def removeStep (fuel : ℕ) (st : Mesh) (c : ℕ) : Mesh :=
  if st.linkCount c < 2 then removeNodeFuel fuel c st else st

/-- The structural size used as the recursion measure of `removeNode`. -/
def Mesh.size (s : Mesh) : ℕ := s.nodes.length + s.links.length

/-- `Mesh.removeNode(node)`: cascading deletion.  `s.size + 1` strictly
exceeds the nesting depth of the source recursion (each nested call starts
from a strictly smaller state), so the fuel never runs out. -/
def Mesh.removeNode (s : Mesh) (i : ℕ) : Mesh := removeNodeFuel (s.size + 1) i s

/-- The sort key of `getNearestNodes`: squared Euclidean distance from the
query point. -/
def dist2 (x y : ℚ) (n : Node) : ℚ := (n.x - x) ^ 2 + (n.y - y) ^ 2

/-- `Mesh.getNearestNodes(x, y, count)`.  ECMAScript `Array.prototype.sort`
is required to be stable and the comparator orders by ascending
`distanceSquared`; `List.insertionSort` with the non-strict key comparison
is exactly that stable sort.  `slice(0, count)` is `take count`. -/
def Mesh.getNearestNodes (s : Mesh) (x y : ℚ) (count : ℕ) : List Node :=
  let candidates :=
    (s.nodes.map (fun n => (n, dist2 x y n))).insertionSort (fun p q => p.2 ≤ q.2)
  (candidates.take count).map (fun item => item.1)

/-- Concrete two-node test mesh: nodes with ids 0, 1 at (0, 0) and (200, 0),
joined by a link of rest length 100 and stiffness 1. -/
def meshPair : Mesh :=
  { nodes := [⟨0, 0, 0, 0, 0, 0, 0, 8, 15, false⟩, ⟨1, 200, 0, 200, 0, 0, 0, 8, 15, false⟩],
    links := [⟨0, 1, 100, 1⟩] }

/-- Concrete three-node test mesh whose link endpoints (ids 0, 2) occupy
coincident positions, as do the outer nodes of its angle constraint. -/
def meshCoincident : Mesh :=
  { nodes := [⟨0, 5, 5, 5, 5, 0, 0, 8, 15, false⟩, ⟨1, 9, 9, 9, 9, 0, 0, 8, 15, false⟩,
      ⟨2, 5, 5, 5, 5, 0, 0, 8, 15, false⟩],
    links := [⟨0, 2, 10, 0.25⟩],
    angleConstraints := [⟨0, 1, 2, 10, 0.8⟩] }

/-- A concrete square-root table agreeing with the real square root at the
points concrete witnesses evaluate it. -/
def sqrtTable (q : ℚ) : ℚ := if q = 40000 then 200 else if q = 10000 then 100 else 0

/-- Concrete four-node test mesh: a ring 0-1-2-3 with the diagonal 1-3 and
one angle constraint through node 0.  Every node has at least 2 links;
removing node 0 leaves the triangle 1-2-3. -/
def meshRing : Mesh :=
  { nodes := [⟨0, 0, 0, 0, 0, 0, 0, 8, 15, false⟩, ⟨1, 100, 0, 100, 0, 0, 0, 8, 15, false⟩,
      ⟨2, 100, 100, 100, 100, 0, 0, 8, 15, false⟩, ⟨3, 0, 100, 0, 100, 0, 0, 8, 15, false⟩],
    links := [⟨0, 1, 95, 0.25⟩, ⟨1, 2, 95, 0.25⟩, ⟨2, 3, 95, 0.25⟩, ⟨3, 0, 95, 0.25⟩,
      ⟨1, 3, 134, 0.25⟩],
    angleConstraints := [⟨1, 0, 3, 141, 0.8⟩] }

/-- Referential integrity: every stored link endpoint and angle-constraint
reference names a node present in the `nodes` collection. -/
def Mesh.refIntegrity (s : Mesh) : Prop :=
  (∀ l ∈ s.links, (∃ nd ∈ s.nodes, nd.id = l.a) ∧ (∃ nd ∈ s.nodes, nd.id = l.b)) ∧
  (∀ t ∈ s.angleConstraints,
    (∃ nd ∈ s.nodes, nd.id = t.a) ∧ (∃ nd ∈ s.nodes, nd.id = t.b) ∧ (∃ nd ∈ s.nodes, nd.id = t.c))

/-- Relation between a node before and after a physics phase: the pinned
flag is untouched, and a pinned node whose previous position coincides with
its current position (`px = x, py = y` — true of pinned nodes created
without an explicit `initialVelocity`, and re-established by `integrate`)
keeps its position and previous position.  The anchoring condition is on
the individual node, so the relation says nothing about other nodes of the
mesh: they may be pinned with a pending initial velocity, or free. -/
def nodeStatic (n n' : Node) : Prop :=
  n'.pinned = n.pinned ∧
    (n.pinned = true → n.px = n.x → n.py = n.y →
      n'.x = n.x ∧ n'.y = n.y ∧ n'.px = n.px ∧ n'.py = n.py)

/-- A phase freezes the anchored pinned nodes: positionally matched nodes
are related by `nodeStatic`. -/
def Mesh.pinnedFrozen (s s' : Mesh) : Prop := List.Forall₂ nodeStatic s.nodes s'.nodes

/-- The relation established by every physics phase of `step()`: anchored
pinned nodes keep their position state, and the node id list is
untouched. -/
def stepRel (s s' : Mesh) : Prop := s.pinnedFrozen s' ∧ s'.ids = s.ids

/-! ## Basic facts about node lookup and update -/

theorem forall₂_map_self {α : Type} {r : α → α → Prop} {f : α → α} :
    ∀ {l : List α}, (∀ a ∈ l, r a (f a)) → List.Forall₂ r l (l.map f)
  | [], _ => List.Forall₂.nil
  | a :: l, h =>
    List.Forall₂.cons (h a (by simp))
      (forall₂_map_self fun b hb => h b (by simp [hb]))

theorem mem_of_id_unique {s : Mesh} (h : s.ids.Nodup) {m n : Node}
    (hm : m ∈ s.nodes) (hn : n ∈ s.nodes) (hid : m.id = n.id) : m = n :=
  List.inj_on_of_nodup_map h hm hn hid

theorem findNode_mem {s : Mesh} {n : Node} (h : s.ids.Nodup) (hn : n ∈ s.nodes) :
    s.findNode n.id = n := by
  unfold Mesh.findNode
  have hs : (s.nodes.find? (fun m => m.id == n.id)).isSome := by
    rw [List.find?_isSome]; exact ⟨n, hn, by simp⟩
  obtain ⟨m, hm⟩ := Option.isSome_iff_exists.mp hs
  have h1 : m ∈ s.nodes := List.mem_of_find?_eq_some hm
  have h2 : m.id = n.id := by simpa using List.find?_some hm
  rw [hm]
  simpa using mem_of_id_unique h h1 hn h2

theorem findNode_id {s : Mesh} {i : ℕ} (hmem : i ∈ s.ids) : (s.findNode i).id = i := by
  unfold Mesh.findNode
  obtain ⟨n, hn, hni⟩ := List.mem_map.mp hmem
  have hs : (s.nodes.find? (fun m => m.id == i)).isSome := by
    rw [List.find?_isSome]; exact ⟨n, hn, by simp [hni]⟩
  obtain ⟨m, hm⟩ := Option.isSome_iff_exists.mp hs
  rw [hm]
  simpa using List.find?_some hm

theorem findNode_mem_nodes {s : Mesh} {i : ℕ} (hmem : i ∈ s.ids) : s.findNode i ∈ s.nodes := by
  unfold Mesh.findNode
  obtain ⟨n, hn, hni⟩ := List.mem_map.mp hmem
  have hs : (s.nodes.find? (fun m => m.id == i)).isSome := by
    rw [List.find?_isSome]; exact ⟨n, hn, by simp [hni]⟩
  obtain ⟨m, hm⟩ := Option.isSome_iff_exists.mp hs
  rw [hm]
  simpa using List.mem_of_find?_eq_some hm

theorem setNode_of_not_mem {s : Mesh} {i : ℕ} {v : Node} (h : i ∉ s.ids) : s.setNode i v = s := by
  unfold Mesh.setNode
  have h1 : s.nodes.map (fun n => if n.id == i then v else n) = s.nodes.map id :=
    List.map_congr_left (fun n hn => by
      have : n.id ≠ i := fun e => h (e ▸ List.mem_map_of_mem Node.id hn)
      simp [this])
  rw [h1, List.map_id]

theorem find?_map_update {i : ℕ} {v : Node} (hv : v.id = i) :
    ∀ l : List Node,
      (l.map (fun n => if n.id == i then v else n)).find? (fun n => n.id == i)
        = (l.find? (fun n => n.id == i)).map (fun _ => v)
  | [] => rfl
  | a :: l => by
    by_cases ha : a.id = i
    · have hga : (if (a.id == i) then v else a) = v := by simp [ha]
      rw [List.map_cons, hga, List.find?_cons_of_pos _ (by simp [hv]),
        List.find?_cons_of_pos _ (by simp [ha])]
      rfl
    · have hga : (if (a.id == i) then v else a) = a := by simp [ha]
      rw [List.map_cons, hga, List.find?_cons_of_neg _ (by simp [ha]),
        List.find?_cons_of_neg _ (by simp [ha])]
      exact find?_map_update hv l

theorem find?_map_update_ne {i j : ℕ} {v : Node} (hv : v.id = i) (hij : j ≠ i) :
    ∀ l : List Node,
      (l.map (fun n => if n.id == i then v else n)).find? (fun n => n.id == j)
        = l.find? (fun n => n.id == j)
  | [] => rfl
  | a :: l => by
    by_cases ha : a.id = i
    · have hvj : v.id ≠ j := by rw [hv]; exact fun e => hij e.symm
      have haj : a.id ≠ j := by rw [ha]; exact fun e => hij e.symm
      have hga : (if (a.id == i) then v else a) = v := by simp [ha]
      rw [List.map_cons, hga, List.find?_cons_of_neg _ (by simp [hvj]),
        List.find?_cons_of_neg _ (by simp [haj])]
      exact find?_map_update_ne hv hij l
    · have hga : (if (a.id == i) then v else a) = a := by simp [ha]
      by_cases haj : a.id = j
      · rw [List.map_cons, hga, List.find?_cons_of_pos _ (by simp [haj]),
          List.find?_cons_of_pos _ (by simp [haj])]
      · rw [List.map_cons, hga, List.find?_cons_of_neg _ (by simp [haj]),
          List.find?_cons_of_neg _ (by simp [haj])]
        exact find?_map_update_ne hv hij l

theorem findNode_setNode_same {s : Mesh} {i : ℕ} {v : Node}
    (hmem : i ∈ s.ids) (hv : v.id = i) : (s.setNode i v).findNode i = v := by
  unfold Mesh.findNode Mesh.setNode
  simp only [find?_map_update hv]
  obtain ⟨n, hn, hni⟩ := List.mem_map.mp hmem
  have hs : (s.nodes.find? (fun m => m.id == i)).isSome := by
    rw [List.find?_isSome]; exact ⟨n, hn, by simp [hni]⟩
  obtain ⟨m, hm⟩ := Option.isSome_iff_exists.mp hs
  simp [hm]

theorem findNode_setNode_ne {s : Mesh} {i j : ℕ} {v : Node} (hv : v.id = i) (hij : j ≠ i) :
    (s.setNode i v).findNode j = s.findNode j := by
  unfold Mesh.findNode Mesh.setNode
  simp only [find?_map_update_ne hv hij]

theorem ids_setNode {s : Mesh} {i : ℕ} {v : Node} (hv : v.id = i) :
    (s.setNode i v).ids = s.ids := by
  unfold Mesh.ids Mesh.setNode
  simp only [List.map_map]
  apply List.map_congr_left
  intro n _
  by_cases h : n.id = i <;> simp [Function.comp, h, hv]

/-! ## The epsilon guard and `satisfy` -/

theorem orEps_ne_zero (d : ℚ) : orEps d ≠ 0 := by
  unfold orEps
  split
  · norm_num
  · assumption

theorem orEps_of_ne_zero {d : ℚ} (h : d ≠ 0) : orEps d = d := if_neg h

theorem node_eta_xy (n : Node) : ({ n with x := n.x, y := n.y } : Node) = n := rfl

theorem setNode_findNode {s : Mesh} (i : ℕ) (hnd : s.ids.Nodup) :
    s.setNode i (s.findNode i) = s := by
  by_cases hmem : i ∈ s.ids
  · unfold Mesh.setNode
    have h1 : s.nodes.map (fun n => if n.id == i then s.findNode i else n) = s.nodes.map id :=
      List.map_congr_left (fun n hn => by
        by_cases h : n.id = i
        · have hfind := findNode_mem hnd hn
          rw [h] at hfind
          simp [h, hfind]
        · simp [h])
    rw [h1, List.map_id]
  · exact setNode_of_not_mem hmem

theorem findNode_after_two_sets (s : Mesh) {i j : ℕ} (hne : i ≠ j)
    (hi : i ∈ s.ids) (hj : j ∈ s.ids) (vi vj : Node)
    (hvi : vi.id = i) (hvj : vj.id = j) :
    ((s.setNode i vi).setNode j vj).findNode i = vi ∧
      ((s.setNode i vi).setNode j vj).findNode j = vj := by
  constructor
  · rw [findNode_setNode_ne hvj hne, findNode_setNode_same hi hvi]
  · exact findNode_setNode_same (by rw [ids_setNode hvi]; exact hj) hvj

theorem Link.satisfy_free (sqrtFn : ℚ → ℚ) (l : Link) (s : Mesh)
    (hpa : (s.findNode l.a).pinned = false) (hpb : (s.findNode l.b).pinned = false) :
    ∃ ox oy : ℚ,
      l.satisfy sqrtFn s =
        (s.setNode l.a
            { s.findNode l.a with
                x := (s.findNode l.a).x + ox, y := (s.findNode l.a).y + oy }).setNode l.b
          { s.findNode l.b with
              x := (s.findNode l.b).x - ox, y := (s.findNode l.b).y - oy } :=
  ⟨((s.findNode l.b).x - (s.findNode l.a).x) *
      ((orEps (hypot sqrtFn ((s.findNode l.b).x - (s.findNode l.a).x)
            ((s.findNode l.b).y - (s.findNode l.a).y)) - l.rest) /
          orEps (hypot sqrtFn ((s.findNode l.b).x - (s.findNode l.a).x)
            ((s.findNode l.b).y - (s.findNode l.a).y))) * (0.5 * l.stiffness),
    ((s.findNode l.b).y - (s.findNode l.a).y) *
      ((orEps (hypot sqrtFn ((s.findNode l.b).x - (s.findNode l.a).x)
            ((s.findNode l.b).y - (s.findNode l.a).y)) - l.rest) /
          orEps (hypot sqrtFn ((s.findNode l.b).x - (s.findNode l.a).x)
            ((s.findNode l.b).y - (s.findNode l.a).y))) * (0.5 * l.stiffness),
    by simp only [Link.satisfy, hpa, hpb, Bool.false_eq_true, if_false]⟩

/-- **C7.**  When both endpoints of a link are unpinned, one `Link.satisfy()`
call moves them by equal and opposite offsets, so the midpoint of the two
endpoints is exactly the same before and after the call. -/
theorem link_satisfy_midpoint (sqrtFn : ℚ → ℚ) (s : Mesh) (l : Link)
    (hab : l.a ≠ l.b) (ha : l.a ∈ s.ids) (hb : l.b ∈ s.ids)
    (hpa : (s.findNode l.a).pinned = false) (hpb : (s.findNode l.b).pinned = false) :
    (((l.satisfy sqrtFn s).findNode l.a).x + ((l.satisfy sqrtFn s).findNode l.b).x) / 2
        = ((s.findNode l.a).x + (s.findNode l.b).x) / 2 ∧
      (((l.satisfy sqrtFn s).findNode l.a).y + ((l.satisfy sqrtFn s).findNode l.b).y) / 2
        = ((s.findNode l.a).y + (s.findNode l.b).y) / 2 := by
  obtain ⟨ox, oy, heq⟩ := Link.satisfy_free sqrtFn l s hpa hpb
  have hina : (s.findNode l.a).id = l.a := findNode_id ha
  have hinb : (s.findNode l.b).id = l.b := findNode_id hb
  obtain ⟨h1, h2⟩ := findNode_after_two_sets s hab ha hb
    { s.findNode l.a with x := (s.findNode l.a).x + ox, y := (s.findNode l.a).y + oy }
    { s.findNode l.b with x := (s.findNode l.b).x - ox, y := (s.findNode l.b).y - oy }
    hina hinb
  rw [heq, h1, h2]
  constructor
  · show ((s.findNode l.a).x + ox + ((s.findNode l.b).x - ox)) / 2
      = ((s.findNode l.a).x + (s.findNode l.b).x) / 2
    ring
  · show ((s.findNode l.a).y + oy + ((s.findNode l.b).y - oy)) / 2
      = ((s.findNode l.a).y + (s.findNode l.b).y) / 2
    ring

/-- **C4.**  The `|| 1e-6` epsilon floor keeps every divisor in the
constraint solver nonzero, and `satisfy()` on a link or angle constraint
whose two corrected endpoints coincide leaves the mesh exactly unchanged:
in exact arithmetic no `NaN` or infinite coordinate can arise, because the
offsets are `0 × (finite value)` and every division has a nonzero divisor.
(`Node.integrate` contains no division at all, so it is total outright.) -/
theorem epsilon_guards (sqrtFn : ℚ → ℚ) (s : Mesh) (hnd : s.ids.Nodup) :
    (∀ d : ℚ, orEps d ≠ 0) ∧
      (∀ l : Link, (s.findNode l.a).x = (s.findNode l.b).x →
        (s.findNode l.a).y = (s.findNode l.b).y → l.satisfy sqrtFn s = s) ∧
      (∀ t : AngleConstraint, (s.findNode t.a).x = (s.findNode t.c).x →
        (s.findNode t.a).y = (s.findNode t.c).y → t.satisfy sqrtFn s = s) := by
  refine ⟨orEps_ne_zero, fun l hx hy => ?_, fun t hx hy => ?_⟩
  · have hdx : (s.findNode l.b).x - (s.findNode l.a).x = 0 := by rw [hx]; ring
    have hdy : (s.findNode l.b).y - (s.findNode l.a).y = 0 := by rw [hy]; ring
    have hs1 : (if (s.findNode l.a).pinned = true then s
        else s.setNode l.a (s.findNode l.a)) = s := by
      split
      · rfl
      · exact setNode_findNode l.a hnd
    simp only [Link.satisfy, hdx, hdy, zero_mul, add_zero, sub_zero, node_eta_xy, hs1]
    split
    · rfl
    · exact setNode_findNode l.b hnd
  · have hdx : (s.findNode t.c).x - (s.findNode t.a).x = 0 := by rw [hx]; ring
    have hdy : (s.findNode t.c).y - (s.findNode t.a).y = 0 := by rw [hy]; ring
    simp only [AngleConstraint.satisfy, hdx, hdy, zero_mul, add_zero, sub_zero, node_eta_xy]
    split
    · rw [setNode_findNode t.a hnd, setNode_findNode t.c hnd]
    · rfl

/-- **C5 (Scenario B).**  A link with rest length 100 and stiffness 1 joining
two distinct unpinned nodes whose separation is 200 is brought strictly
closer to its rest length by one `satisfy()` call: the new separation is in
fact exactly 100.  The two `sqrtFn` hypotheses pin the square root down at
the only two points where the computation evaluates it, and both are true of
the real square root: if `sqrt (dx² + dy²) = 200` then
`sqrt ((dx² + dy²)/4) = 100`. -/
theorem link_satisfy_scenarioB (sqrtFn : ℚ → ℚ) (s : Mesh) (l : Link)
    (hab : l.a ≠ l.b) (ha : l.a ∈ s.ids) (hb : l.b ∈ s.ids)
    (hpa : (s.findNode l.a).pinned = false) (hpb : (s.findNode l.b).pinned = false)
    (hrest : l.rest = 100) (hstiff : l.stiffness = 1)
    (hsep : hypot sqrtFn ((s.findNode l.b).x - (s.findNode l.a).x)
      ((s.findNode l.b).y - (s.findNode l.a).y) = 200)
    (hsqrt : sqrtFn ((((s.findNode l.b).x - (s.findNode l.a).x) * ((s.findNode l.b).x - (s.findNode l.a).x) + ((s.findNode l.b).y - (s.findNode l.a).y) * ((s.findNode l.b).y - (s.findNode l.a).y)) / 4) = 100) :
    |hypot sqrtFn (((l.satisfy sqrtFn s).findNode l.b).x - ((l.satisfy sqrtFn s).findNode l.a).x)
        (((l.satisfy sqrtFn s).findNode l.b).y - ((l.satisfy sqrtFn s).findNode l.a).y)
      - 100| < |(200 : ℚ) - 100| := by
  have hina : (s.findNode l.a).id = l.a := findNode_id ha
  have hinb : (s.findNode l.b).id = l.b := findNode_id hb
  have hsat : l.satisfy sqrtFn s =
      (s.setNode l.a
          { s.findNode l.a with
              x := (s.findNode l.a).x + ((s.findNode l.b).x - (s.findNode l.a).x) / 4,
              y := (s.findNode l.a).y + ((s.findNode l.b).y - (s.findNode l.a).y) / 4 }).setNode
        l.b
        { s.findNode l.b with
            x := (s.findNode l.b).x - ((s.findNode l.b).x - (s.findNode l.a).x) / 4,
            y := (s.findNode l.b).y - ((s.findNode l.b).y - (s.findNode l.a).y) / 4 } := by
    have hd : orEps (hypot sqrtFn ((s.findNode l.b).x - (s.findNode l.a).x)
        ((s.findNode l.b).y - (s.findNode l.a).y)) = 200 := by
      rw [hsep]; exact orEps_of_ne_zero (by norm_num)
    have hox : ((s.findNode l.b).x - (s.findNode l.a).x) * ((200 - l.rest) / 200) *
        (0.5 * l.stiffness) = ((s.findNode l.b).x - (s.findNode l.a).x) / 4 := by
      rw [hrest, hstiff]; ring
    have hoy : ((s.findNode l.b).y - (s.findNode l.a).y) * ((200 - l.rest) / 200) *
        (0.5 * l.stiffness) = ((s.findNode l.b).y - (s.findNode l.a).y) / 4 := by
      rw [hrest, hstiff]; ring
    simp only [Link.satisfy, hpa, hpb, Bool.false_eq_true, if_false, hd, hox, hoy]
  obtain ⟨h1, h2⟩ := findNode_after_two_sets s hab ha hb
    { s.findNode l.a with
        x := (s.findNode l.a).x + ((s.findNode l.b).x - (s.findNode l.a).x) / 4,
        y := (s.findNode l.a).y + ((s.findNode l.b).y - (s.findNode l.a).y) / 4 }
    { s.findNode l.b with
        x := (s.findNode l.b).x - ((s.findNode l.b).x - (s.findNode l.a).x) / 4,
        y := (s.findNode l.b).y - ((s.findNode l.b).y - (s.findNode l.a).y) / 4 }
    hina hinb
  rw [hsat, h1, h2]
  show |hypot sqrtFn
      ((s.findNode l.b).x - ((s.findNode l.b).x - (s.findNode l.a).x) / 4 -
        ((s.findNode l.a).x + ((s.findNode l.b).x - (s.findNode l.a).x) / 4))
      ((s.findNode l.b).y - ((s.findNode l.b).y - (s.findNode l.a).y) / 4 -
        ((s.findNode l.a).y + ((s.findNode l.b).y - (s.findNode l.a).y) / 4)) - 100|
    < |(200 : ℚ) - 100|
  have harg : ((s.findNode l.b).x - ((s.findNode l.b).x - (s.findNode l.a).x) / 4 -
        ((s.findNode l.a).x + ((s.findNode l.b).x - (s.findNode l.a).x) / 4)) *
      ((s.findNode l.b).x - ((s.findNode l.b).x - (s.findNode l.a).x) / 4 -
        ((s.findNode l.a).x + ((s.findNode l.b).x - (s.findNode l.a).x) / 4)) +
      ((s.findNode l.b).y - ((s.findNode l.b).y - (s.findNode l.a).y) / 4 -
        ((s.findNode l.a).y + ((s.findNode l.b).y - (s.findNode l.a).y) / 4)) *
      ((s.findNode l.b).y - ((s.findNode l.b).y - (s.findNode l.a).y) / 4 -
        ((s.findNode l.a).y + ((s.findNode l.b).y - (s.findNode l.a).y) / 4))
      = (((s.findNode l.b).x - (s.findNode l.a).x) * ((s.findNode l.b).x - (s.findNode l.a).x) +
          ((s.findNode l.b).y - (s.findNode l.a).y) * ((s.findNode l.b).y - (s.findNode l.a).y)) / 4 := by
    ring
  simp only [hypot]
  rw [harg, hsqrt]
  norm_num

/-! ## Crossing-check symmetry -/

theorem lineIntersection_isSome_swap (p1x p1y p2x p2y p3x p3y p4x p4y : ℚ) :
    (lineIntersection p2x p2y p1x p1y p3x p3y p4x p4y).isSome
      = (lineIntersection p1x p1y p2x p2y p3x p3y p4x p4y).isSome := by
  have hden : (p2x - p1x) * (p3y - p4y) - (p2y - p1y) * (p3x - p4x)
      = -((p1x - p2x) * (p3y - p4y) - (p1y - p2y) * (p3x - p4x)) := by ring
  simp only [lineIntersection, hden, abs_neg]
  by_cases hsmall : |(p1x - p2x) * (p3y - p4y) - (p1y - p2y) * (p3x - p4x)| < 1e-10
  · simp [hsmall]
  · have hD : (p1x - p2x) * (p3y - p4y) - (p1y - p2y) * (p3x - p4x) ≠ 0 := by
      intro h
      rw [h] at hsmall
      simp at hsmall
      norm_num at hsmall
    simp only [hsmall, if_false]
    have h1 : (p2x - p3x) * (p3y - p4y) - (p2y - p3y) * (p3x - p4x)
        = ((p1x - p3x) * (p3y - p4y) - (p1y - p3y) * (p3x - p4x)) -
            ((p1x - p2x) * (p3y - p4y) - (p1y - p2y) * (p3x - p4x)) := by ring
    have h2 : (p2x - p1x) * (p2y - p3y) - (p2y - p1y) * (p2x - p3x)
        = -((p1x - p2x) * (p1y - p3y) - (p1y - p2y) * (p1x - p3x)) := by ring
    have ht : ((p2x - p3x) * (p3y - p4y) - (p2y - p3y) * (p3x - p4x)) /
        -((p1x - p2x) * (p3y - p4y) - (p1y - p2y) * (p3x - p4x))
        = 1 - ((p1x - p3x) * (p3y - p4y) - (p1y - p3y) * (p3x - p4x)) /
          ((p1x - p2x) * (p3y - p4y) - (p1y - p2y) * (p3x - p4x)) := by
      rw [h1, div_neg, sub_div, div_self hD]
      ring
    have hu : -((p2x - p1x) * (p2y - p3y) - (p2y - p1y) * (p2x - p3x)) /
        -((p1x - p2x) * (p3y - p4y) - (p1y - p2y) * (p3x - p4x))
        = -((p1x - p2x) * (p1y - p3y) - (p1y - p2y) * (p1x - p3x)) /
          ((p1x - p2x) * (p3y - p4y) - (p1y - p2y) * (p3x - p4x)) := by
      rw [h2, neg_neg, div_neg, neg_div]
    rw [ht, hu]
    set t := ((p1x - p3x) * (p3y - p4y) - (p1y - p3y) * (p3x - p4x)) /
      ((p1x - p2x) * (p3y - p4y) - (p1y - p2y) * (p3x - p4x)) with hT
    set u := -((p1x - p2x) * (p1y - p3y) - (p1y - p2y) * (p1x - p3x)) /
      ((p1x - p2x) * (p3y - p4y) - (p1y - p2y) * (p3x - p4x)) with hU
    have hcond : (0 ≤ 1 - t ∧ 1 - t ≤ 1 ∧ 0 ≤ u ∧ u ≤ 1)
        ↔ (0 ≤ t ∧ t ≤ 1 ∧ 0 ≤ u ∧ u ≤ 1) := by
      constructor <;> rintro ⟨h1, h2, h3, h4⟩ <;>
        exact ⟨by linarith, by linarith, h3, h4⟩
    by_cases hc : 0 ≤ t ∧ t ≤ 1 ∧ 0 ≤ u ∧ u ≤ 1
    · rw [if_pos hc, if_pos (hcond.mpr hc)]
      rfl
    · rw [if_neg hc, if_neg (fun h => hc (hcond.mp h))]

/-- **C6.**  `wouldLinkCross(a, b)` and `wouldLinkCross(b, a)` agree for
every pair of nodes, over any fixed set of existing links: the shares-an-
endpoint skip test is symmetric in the two arguments, and the parametric
segment-intersection test is invariant under reversing the query segment
(the line parameter becomes `1 - t` and `u` is unchanged, with the same
degenerate-denominator cutoff). -/
theorem wouldLinkCross_symm (s : Mesh) (fromN toN : Node) :
    s.wouldLinkCross fromN toN = s.wouldLinkCross toN fromN := by
  unfold Mesh.wouldLinkCross
  have hf : (fun l : Link =>
      if l.a == fromN.id || l.a == toN.id || l.b == fromN.id || l.b == toN.id then false
      else
        (lineIntersection fromN.x fromN.y toN.x toN.y (s.findNode l.a).x (s.findNode l.a).y
          (s.findNode l.b).x (s.findNode l.b).y).isSome)
      = (fun l : Link =>
      if l.a == toN.id || l.a == fromN.id || l.b == toN.id || l.b == fromN.id then false
      else
        (lineIntersection toN.x toN.y fromN.x fromN.y (s.findNode l.a).x (s.findNode l.a).y
          (s.findNode l.b).x (s.findNode l.b).y).isSome) := by
    funext l
    have hc : (l.a == fromN.id || l.a == toN.id || l.b == fromN.id || l.b == toN.id)
        = (l.a == toN.id || l.a == fromN.id || l.b == toN.id || l.b == fromN.id) := by
      simp [Bool.or_comm, Bool.or_left_comm]
    rw [hc]
    split
    · rfl
    · exact (lineIntersection_isSome_swap _ _ _ _ _ _ _ _).symm
  rw [hf]

/-! ## Gravity phase -/

/-- **C8.**  The gravity loop at the top of `Mesh.step` calls
`applyForce(gravity.x * mass, gravity.y * mass)` on every node; for a free
node whose accumulated acceleration starts at zero the phase therefore ends
with acceleration exactly equal to the gravity vector, whatever its
(nonzero) mass — the mass cancels between the force and `applyForce`'s
division.  (Masses created through the source API are always nonzero:
`createNode` coerces a falsy mass to the default 15.) -/
theorem gravity_phase_acceleration (s : Mesh) (i : ℕ) (n : Node)
    (hget : s.nodes[i]? = some n) (hfree : n.pinned = false)
    (hax : n.ax = 0) (hay : n.ay = 0) (hm : n.mass ≠ 0) :
    ∃ n', s.applyGravity.nodes[i]? = some n'
      ∧ n'.ax = s.gravityX ∧ n'.ay = s.gravityY ∧ n'.pinned = false
      ∧ n'.x = n.x ∧ n'.y = n.y := by
  refine ⟨n.applyForce (s.gravityX * n.mass) (s.gravityY * n.mass), ?_, ?_, ?_, ?_, ?_, ?_⟩
  · unfold Mesh.applyGravity
    simp [hget]
  · unfold Node.applyForce
    simp only [hax, zero_add]
    rw [mul_div_assoc, div_self hm, mul_one]
  · unfold Node.applyForce
    simp only [hay, zero_add]
    rw [mul_div_assoc, div_self hm, mul_one]
  · exact hfree
  · rfl
  · rfl

/-! ## The pinned invariant across `step()` -/

theorem nodeStatic_refl (n : Node) : nodeStatic n n :=
  ⟨rfl, fun _ _ _ => ⟨rfl, rfl, rfl, rfl⟩⟩

theorem nodeStatic_trans {a b c : Node} (h1 : nodeStatic a b) (h2 : nodeStatic b c) :
    nodeStatic a c := by
  obtain ⟨hp1, hf1⟩ := h1
  obtain ⟨hp2, hf2⟩ := h2
  refine ⟨hp2.trans hp1, fun hpin hpx hpy => ?_⟩
  obtain ⟨x1, y1, px1, py1⟩ := hf1 hpin hpx hpy
  have hbpin : b.pinned = true := hp1.trans hpin
  have hbpx : b.px = b.x := by rw [px1, x1, hpx]
  have hbpy : b.py = b.y := by rw [py1, y1, hpy]
  obtain ⟨x2, y2, px2, py2⟩ := hf2 hbpin hbpx hbpy
  exact ⟨x2.trans x1, y2.trans y1, px2.trans px1, py2.trans py1⟩

theorem forall₂_trans {α : Type} {r : α → α → Prop}
    (htr : ∀ a b c : α, r a b → r b c → r a c) :
    ∀ {l1 l2 l3 : List α}, List.Forall₂ r l1 l2 → List.Forall₂ r l2 l3 →
      List.Forall₂ r l1 l3 := by
  intro l1 l2 l3 h1 h2
  induction h1 generalizing l3 with
  | nil => cases h2; exact List.Forall₂.nil
  | cons hr ht ih =>
    cases h2 with
    | cons hr2 ht2 => exact List.Forall₂.cons (htr _ _ _ hr hr2) (ih ht2)

theorem pinnedFrozen_refl (s : Mesh) : s.pinnedFrozen s :=
  List.forall₂_same.mpr fun n _ => nodeStatic_refl n

theorem stepRel_refl (s : Mesh) : stepRel s s := ⟨pinnedFrozen_refl s, rfl⟩

theorem stepRel_trans {a b c : Mesh} (h1 : stepRel a b) (h2 : stepRel b c) : stepRel a c :=
  ⟨forall₂_trans (r := nodeStatic) (fun _ _ _ hab hbc => nodeStatic_trans hab hbc) h1.1 h2.1,
    h2.2.trans h1.2⟩

theorem stepRel_nodup {s s' : Mesh} (h : stepRel s s') (hnd : s.ids.Nodup) : s'.ids.Nodup := by
  rw [h.2]
  exact hnd

theorem stepRel_mapNodes {s : Mesh} {f : Node → Node} (hid : ∀ n, (f n).id = n.id)
    (hstatic : ∀ n ∈ s.nodes, nodeStatic n (f n)) :
    stepRel s { s with nodes := s.nodes.map f } := by
  constructor
  · exact forall₂_map_self hstatic
  · show (s.nodes.map f).map Node.id = s.ids
    rw [List.map_map]
    exact List.map_congr_left fun n _ => hid n

theorem bool_false_of_not_true {b : Bool} (h : ¬b = true) : b = false := by
  cases b
  · rfl
  · exact absurd rfl h

theorem nodeStatic_applyForce (n : Node) (fx fy : ℚ) : nodeStatic n (n.applyForce fx fy) :=
  ⟨rfl, fun _ _ _ => ⟨rfl, rfl, rfl, rfl⟩⟩

theorem integrate_id (n : Node) (dt damping : ℚ) : (n.integrate dt damping).id = n.id := by
  unfold Node.integrate
  split <;> rfl

theorem nodeStatic_integrate (n : Node) (dt damping : ℚ) :
    nodeStatic n (n.integrate dt damping) := by
  unfold Node.integrate
  by_cases hp : n.pinned = true
  · rw [if_pos hp]
    exact ⟨rfl, fun _ hpx hpy => ⟨rfl, rfl, hpx.symm, hpy.symm⟩⟩
  · rw [if_neg hp]
    exact ⟨rfl, fun hpin => absurd hpin hp⟩

theorem wallBounds_pinned_id (s : Mesh) (n : Node) :
    (s.applyWallBounds n).pinned = n.pinned ∧ (s.applyWallBounds n).id = n.id := by
  simp only [Mesh.applyWallBounds]
  split_ifs <;> exact ⟨rfl, rfl⟩

theorem nodeStatic_wallBounds (s : Mesh) (n : Node) : nodeStatic n (s.applyWallBounds n) := by
  by_cases hp : n.pinned = true
  · have heq : s.applyWallBounds n = n := by
      unfold Mesh.applyWallBounds
      rw [if_pos hp]
    rw [heq]
    exact nodeStatic_refl n
  · exact ⟨(wallBounds_pinned_id s n).1, fun hpin => absurd hpin hp⟩

theorem groundCollision_pinned_id (s : Mesh) (n : Node) :
    (s.applyGroundCollision n).pinned = n.pinned ∧ (s.applyGroundCollision n).id = n.id := by
  simp only [Mesh.applyGroundCollision]
  split_ifs <;> exact ⟨rfl, rfl⟩

theorem nodeStatic_groundCollision (s : Mesh) (n : Node) :
    nodeStatic n (s.applyGroundCollision n) := by
  by_cases hp : n.pinned = true
  · have heq : s.applyGroundCollision n = n := by
      unfold Mesh.applyGroundCollision
      rw [if_pos hp]
    rw [heq]
    exact nodeStatic_refl n
  · exact ⟨(groundCollision_pinned_id s n).1, fun hpin => absurd hpin hp⟩

theorem stepRel_gravity (s : Mesh) : stepRel s s.applyGravity :=
  stepRel_mapNodes (fun _ => rfl) (fun n _ => nodeStatic_applyForce n _ _)

theorem stepRel_wallPhase (s : Mesh) : stepRel s s.wallPhase :=
  stepRel_mapNodes (fun n => (wallBounds_pinned_id s n).2)
    (fun n _ => nodeStatic_wallBounds s n)

theorem stepRel_groundPhase (s : Mesh) : stepRel s s.groundPhase :=
  stepRel_mapNodes (fun n => (groundCollision_pinned_id s n).2)
    (fun n _ => nodeStatic_groundCollision s n)

theorem stepRel_integratePhase (s : Mesh) (dt : ℚ) :
    stepRel s (s.integratePhase dt) :=
  stepRel_mapNodes (fun n => integrate_id n dt s.damping)
    (fun n _ => nodeStatic_integrate n dt s.damping)

theorem pinnedFrozen_setNode {s : Mesh} {i : ℕ} {v : Node} (hnd : s.ids.Nodup)
    (hvp : v.pinned = (s.findNode i).pinned) (hfree : (s.findNode i).pinned = false) :
    s.pinnedFrozen (s.setNode i v) := by
  apply forall₂_map_self
  intro n hn
  show nodeStatic n (if (n.id == i) = true then v else n)
  by_cases hni : n.id = i
  · have hfind : s.findNode i = n := by rw [← hni]; exact findNode_mem hnd hn
    have hnp : n.pinned = false := by rw [← hfind]; exact hfree
    rw [if_pos (by simp [hni])]
    refine ⟨by rw [hvp, hfind], fun hpin => ?_⟩
    rw [hnp] at hpin
    cases hpin
  · rw [if_neg (by simp [hni])]
    exact nodeStatic_refl n

theorem stepRel_setNode {s : Mesh} {i : ℕ} {v : Node} (hnd : s.ids.Nodup)
    (hvid : v.id = (s.findNode i).id) (hvp : v.pinned = (s.findNode i).pinned)
    (hfree : (s.findNode i).pinned = false) : stepRel s (s.setNode i v) := by
  refine ⟨pinnedFrozen_setNode hnd hvp hfree, ?_⟩
  by_cases hmem : i ∈ s.ids
  · exact ids_setNode (hvid.trans (findNode_id hmem))
  · rw [setNode_of_not_mem hmem]

theorem findNode_setNode_fields {s : Mesh} {i : ℕ} {v : Node}
    (hvid : v.id = (s.findNode i).id) (hvp : v.pinned = (s.findNode i).pinned) (j : ℕ) :
    ((s.setNode i v).findNode j).id = (s.findNode j).id ∧
      ((s.setNode i v).findNode j).pinned = (s.findNode j).pinned := by
  by_cases hmem : i ∈ s.ids
  · have hvid' : v.id = i := hvid.trans (findNode_id hmem)
    by_cases hij : j = i
    · subst hij
      rw [findNode_setNode_same hmem hvid']
      exact ⟨hvid, hvp⟩
    · rw [findNode_setNode_ne hvid' hij]
      exact ⟨rfl, rfl⟩
  · rw [setNode_of_not_mem hmem]
    exact ⟨rfl, rfl⟩

theorem stepRel_twoSets {s : Mesh} (hnd : s.ids.Nodup) (i j : ℕ) (Xi Yi Xj Yj : ℚ)
    (hfi : (s.findNode i).pinned = false) (hfj : (s.findNode j).pinned = false) :
    stepRel s ((s.setNode i { s.findNode i with x := Xi, y := Yi }).setNode j
      { s.findNode j with x := Xj, y := Yj }) := by
  have h1 : stepRel s (s.setNode i { s.findNode i with x := Xi, y := Yi }) :=
    stepRel_setNode hnd rfl rfl hfi
  refine stepRel_trans h1 ?_
  have hnd1 := stepRel_nodup h1 hnd
  have hf := findNode_setNode_fields (s := s) (i := i)
    (v := { s.findNode i with x := Xi, y := Yi }) rfl rfl j
  exact stepRel_setNode hnd1 hf.1.symm hf.2.symm (by rw [hf.2]; exact hfj)

theorem stepRel_pushNode (sqrtFn : ℚ → ℚ) (s : Mesh) (i : ℕ) (px py strength : ℚ)
    (hnd : s.ids.Nodup) : stepRel s (s.pushNodeFromPoint sqrtFn i px py strength) := by
  simp only [Mesh.pushNodeFromPoint]
  by_cases hp : (s.findNode i).pinned = true
  · rw [if_pos hp]
    exact stepRel_refl s
  · rw [if_neg hp]
    exact stepRel_setNode hnd rfl rfl (bool_false_of_not_true hp)

theorem stepRel_pushLinks (sqrtFn : ℚ → ℚ) (s : Mesh) (l1 l2 : Link) (ix iy : ℚ)
    (hnd : s.ids.Nodup) : stepRel s (s.pushLinksApart sqrtFn l1 l2 ix iy) := by
  simp only [Mesh.pushLinksApart]
  split
  · have h1 := stepRel_pushNode sqrtFn s l1.a ix iy 0.3 hnd
    have h2 := stepRel_pushNode sqrtFn _ l1.b ix iy 0.3 (stepRel_nodup h1 hnd)
    have h12 := stepRel_trans h1 h2
    have h3 := stepRel_pushNode sqrtFn _ l2.a ix iy 0.3 (stepRel_nodup h12 hnd)
    have h13 := stepRel_trans h12 h3
    have h4 := stepRel_pushNode sqrtFn _ l2.b ix iy 0.3 (stepRel_nodup h13 hnd)
    exact stepRel_trans h13 h4
  · exact stepRel_refl s

theorem stepRel_foldl {α : Type} (g : Mesh → α → Mesh) (L : List α)
    (hg : ∀ st a, st.ids.Nodup → stepRel st (g st a)) :
    ∀ st : Mesh, st.ids.Nodup → stepRel st (L.foldl g st) := by
  induction L with
  | nil => intro st _; exact stepRel_refl st
  | cons a L ih =>
    intro st hnd
    have h1 := hg st a hnd
    exact stepRel_trans h1 (ih (g st a) (stepRel_nodup h1 hnd))

theorem stepRel_crossPass (sqrtFn : ℚ → ℚ) (s : Mesh) (hnd : s.ids.Nodup) :
    stepRel s (s.preventLinkCrossings sqrtFn) := by
  unfold Mesh.preventLinkCrossings
  refine stepRel_foldl _ _ (fun st ij hnd' => ?_) s hnd
  split
  · split
    · exact stepRel_refl st
    · dsimp only
      split
      · exact stepRel_pushLinks sqrtFn st _ _ _ _ hnd'
      · exact stepRel_refl st
  · exact stepRel_refl st

theorem stepRel_linkSatisfy (sqrtFn : ℚ → ℚ) (l : Link) (s : Mesh) (hnd : s.ids.Nodup) :
    stepRel s (l.satisfy sqrtFn s) := by
  simp only [Link.satisfy]
  by_cases hpa : (s.findNode l.a).pinned = true <;>
    by_cases hpb : (s.findNode l.b).pinned = true
  · rw [if_pos hpa, if_pos hpb]
    exact stepRel_refl s
  · rw [if_pos hpa, if_neg hpb]
    exact stepRel_setNode hnd rfl rfl (bool_false_of_not_true hpb)
  · rw [if_neg hpa, if_pos hpb]
    exact stepRel_setNode hnd rfl rfl (bool_false_of_not_true hpa)
  · rw [if_neg hpa, if_neg hpb]
    exact stepRel_twoSets hnd l.a l.b _ _ _ _ (bool_false_of_not_true hpa)
      (bool_false_of_not_true hpb)

theorem stepRel_angleSatisfy (sqrtFn : ℚ → ℚ) (t : AngleConstraint) (s : Mesh)
    (hnd : s.ids.Nodup) : stepRel s (t.satisfy sqrtFn s) := by
  simp only [AngleConstraint.satisfy]
  by_cases hg : ((!(s.findNode t.a).pinned && !(s.findNode t.c).pinned) : Bool) = true
  · have hfa : (s.findNode t.a).pinned = false := by
      cases hqa : (s.findNode t.a).pinned
      · rfl
      · rw [hqa] at hg
        simp at hg
    have hfc : (s.findNode t.c).pinned = false := by
      cases hqc : (s.findNode t.c).pinned
      · rfl
      · rw [hqc] at hg
        simp at hg
    rw [if_pos hg]
    exact stepRel_twoSets hnd t.a t.c _ _ _ _ hfa hfc
  · rw [if_neg hg]
    exact stepRel_refl s

theorem stepRel_linkPhase (sqrtFn : ℚ → ℚ) (s : Mesh) (hnd : s.ids.Nodup) :
    stepRel s (s.linkPhase sqrtFn) :=
  stepRel_foldl _ s.links (fun st l hnd' => stepRel_linkSatisfy sqrtFn l st hnd') s hnd

theorem stepRel_anglePhase (sqrtFn : ℚ → ℚ) (s : Mesh) (hnd : s.ids.Nodup) :
    stepRel s (s.anglePhase sqrtFn) :=
  stepRel_foldl _ s.angleConstraints (fun st t hnd' => stepRel_angleSatisfy sqrtFn t st hnd')
    s hnd

theorem stepRel_solverPass (sqrtFn : ℚ → ℚ) (s : Mesh) (hnd : s.ids.Nodup) :
    stepRel s (s.solverPass sqrtFn) := by
  unfold Mesh.solverPass
  have h1 := stepRel_wallPhase s
  have h2 := stepRel_groundPhase s.wallPhase
  have h12 := stepRel_trans h1 h2
  have h3 := stepRel_crossPass sqrtFn _ (stepRel_nodup h12 hnd)
  have h13 := stepRel_trans h12 h3
  have h4 := stepRel_linkPhase sqrtFn _ (stepRel_nodup h13 hnd)
  have h14 := stepRel_trans h13 h4
  have h5 := stepRel_anglePhase sqrtFn _ (stepRel_nodup h14 hnd)
  have h15 := stepRel_trans h14 h5
  have h6 := stepRel_crossPass sqrtFn _ (stepRel_nodup h15 hnd)
  exact stepRel_trans h15 h6

theorem stepRel_step (sqrtFn : ℚ → ℚ) (s : Mesh) (dt : ℚ) (hnd : s.ids.Nodup) :
    stepRel s (s.step sqrtFn dt) := by
  unfold Mesh.step
  have h1 := stepRel_gravity s
  have h2 := stepRel_integratePhase s.applyGravity dt
  have h12 := stepRel_trans h1 h2
  have hnd2 := stepRel_nodup h12 hnd
  have hiter : ∀ (k : ℕ) (t : Mesh), t.ids.Nodup →
      stepRel t ((Mesh.solverPass sqrtFn)^[k] t) := by
    intro k
    induction k with
    | zero => intro t _; exact stepRel_refl t
    | succ k ih =>
      intro t hndt
      rw [Function.iterate_succ_apply]
      have hstep := stepRel_solverPass sqrtFn t hndt
      exact stepRel_trans hstep (ih _ (stepRel_nodup hstep hndt))
  exact stepRel_trans h12 (hiter _ _ hnd2)

theorem stepRel_stepSeq (sqrtFn : ℚ → ℚ) (dts : List ℚ) :
    ∀ s : Mesh, s.ids.Nodup → stepRel s (s.stepSeq sqrtFn dts) := by
  induction dts with
  | nil => intro s _; exact stepRel_refl s
  | cons dt dts ih =>
    intro s hnd
    have h1 := stepRel_step sqrtFn s dt hnd
    exact stepRel_trans h1 (ih (s.step sqrtFn dt) (stepRel_nodup h1 hnd))

theorem forall₂_getElem {α : Type} {r : α → α → Prop} :
    ∀ {l l' : List α}, List.Forall₂ r l l' → ∀ {i : ℕ} {a a' : α},
      l[i]? = some a → l'[i]? = some a' → r a a' := by
  intro l l' hf
  induction hf with
  | nil =>
    intro i a a' h1 _
    simp at h1
  | @cons x x' t t' hr ht ih =>
    intro i a a' h1 h2
    cases i with
    | zero =>
      simp only [List.getElem?_cons_zero, Option.some.injEq] at h1 h2
      rw [← h1, ← h2]
      exact hr
    | succ i =>
      simp only [List.getElem?_cons_succ] at h1 h2
      exact ih h1 h2

/-- **C1 (amended).**  For every pinned node whose own previous position
coincides with its current position — true of every pinned node created
without an explicit `initialVelocity`, and re-established by `integrate`
on every step — any sequence of `step()` calls, with any timesteps, leaves
that node's position `(x, y)` and previous position `(px, py)` exactly
unchanged (and the node pinned).  The condition is on the node in question
only: the rest of the mesh is arbitrary, and may in particular contain
pinned nodes created with an `initialVelocity` (whose `px ≠ x`).  Gravity
touches only the accumulated acceleration, `integrate` short-circuits for
pinned nodes, and every wall-bound, ground-collision, crossing-prevention
and constraint write is guarded by the node's `pinned` flag. -/
theorem pinned_nodes_static (sqrtFn : ℚ → ℚ) (s : Mesh) (dts : List ℚ)
    (hnd : s.ids.Nodup) (i : ℕ) (n n' : Node)
    (hn : s.nodes[i]? = some n) (hpin : n.pinned = true)
    (hpx : n.px = n.x) (hpy : n.py = n.y)
    (hn' : (s.stepSeq sqrtFn dts).nodes[i]? = some n') :
    n'.x = n.x ∧ n'.y = n.y ∧ n'.px = n.px ∧ n'.py = n.py ∧ n'.pinned = true := by
  have hrel := stepRel_stepSeq sqrtFn dts s hnd
  have hstat : nodeStatic n n' := forall₂_getElem hrel.1 hn hn'
  obtain ⟨hx, hy, hpx', hpy'⟩ := hstat.2 hpin hpx hpy
  exact ⟨hx, hy, hpx', hpy', hstat.1.trans hpin⟩

/-- Counterexample to C1 as literally stated: a pinned node may be created
with an initial velocity (`createNode` then sets `px = x - v.x ≠ x`), and
the first `Node.integrate` of the first `step()` resets `px := x`,
changing the node's stored previous position.  Here the pinned node starts
at `x = 5` with `px = 3`; after one `step()` its `px` is 5. -/
theorem pinned_prev_changed_counterexample :
    ((({ nodes := [⟨0, 5, 6, 3, 6, 0, 0, 8, 15, true⟩] } : Mesh).step (fun _ => 0)
          (1/60)).findNode 0).px = 5 ∧
      (({ nodes := [⟨0, 5, 6, 3, 6, 0, 0, 8, 15, true⟩] } : Mesh).findNode 0).px = 3 ∧
      (({ nodes := [⟨0, 5, 6, 3, 6, 0, 0, 8, 15, true⟩] } : Mesh).findNode 0).pinned = true := by
  refine ⟨?_, by decide, by decide⟩
  decide

/-! ## Concrete witnesses -/

/-- Witness for `pinned_nodes_static`: an anchored pinned node stays put
over two steps, in a mesh that also contains a second pinned node created
with an initial velocity (`px = 4 ≠ x = 7`), which the theorem places no
condition on. -/
theorem pinned_nodes_static_witness :
    ((({ nodes := [⟨0, 5, 6, 5, 6, 0, 0, 8, 15, true⟩,
            ⟨1, 7, 8, 4, 8, 0, 0, 8, 15, true⟩] } : Mesh).stepSeq (fun _ => 0)
        [1/60, 1/60]).nodes[0]?.map Node.x = some 5) ∧
      (∀ n' : Node,
        (({ nodes := [⟨0, 5, 6, 5, 6, 0, 0, 8, 15, true⟩,
              ⟨1, 7, 8, 4, 8, 0, 0, 8, 15, true⟩] } : Mesh).stepSeq (fun _ => 0)
            [1/60, 1/60]).nodes[0]? = some n' →
          n'.x = 5 ∧ n'.y = 6 ∧ n'.px = 5 ∧ n'.py = 6 ∧ n'.pinned = true) := by
  constructor
  · decide
  · intro n' hn'
    exact pinned_nodes_static (fun _ => 0)
      { nodes := [⟨0, 5, 6, 5, 6, 0, 0, 8, 15, true⟩, ⟨1, 7, 8, 4, 8, 0, 0, 8, 15, true⟩] }
      [1/60, 1/60] (by decide) 0 ⟨0, 5, 6, 5, 6, 0, 0, 8, 15, true⟩ n'
      (by decide) (by decide) (by decide) (by decide) hn'

/-- Witness for `epsilon_guards`, evaluated on `meshCoincident`. -/
theorem epsilon_guards_witness :
    orEps 0 ≠ 0 ∧ (Link.mk 0 2 10 0.25).satisfy sqrtTable meshCoincident = meshCoincident ∧
      (AngleConstraint.mk 0 1 2 10 0.8).satisfy sqrtTable meshCoincident = meshCoincident :=
  ⟨(epsilon_guards sqrtTable meshCoincident (by decide)).1 0,
    (epsilon_guards sqrtTable meshCoincident (by decide)).2.1 (Link.mk 0 2 10 0.25)
      (by decide) (by decide),
    (epsilon_guards sqrtTable meshCoincident (by decide)).2.2 (AngleConstraint.mk 0 1 2 10 0.8)
      (by decide) (by decide)⟩

/-- Witness for `link_satisfy_scenarioB`, evaluated on `meshPair`. -/
theorem link_satisfy_scenarioB_witness :
    |hypot sqrtTable
        ((((Link.mk 0 1 100 1).satisfy sqrtTable meshPair).findNode 1).x -
          (((Link.mk 0 1 100 1).satisfy sqrtTable meshPair).findNode 0).x)
        ((((Link.mk 0 1 100 1).satisfy sqrtTable meshPair).findNode 1).y -
          (((Link.mk 0 1 100 1).satisfy sqrtTable meshPair).findNode 0).y)
      - 100| < |(200 : ℚ) - 100| :=
  link_satisfy_scenarioB sqrtTable meshPair (Link.mk 0 1 100 1) (by decide) (by decide)
    (by decide) (by decide) (by decide) rfl rfl
    (by norm_num [meshPair, Mesh.findNode, hypot, sqrtTable])
    (by norm_num [meshPair, Mesh.findNode, sqrtTable])

/-- Witness for `link_satisfy_midpoint`, evaluated on `meshPair`. -/
theorem link_satisfy_midpoint_witness :
    ((((Link.mk 0 1 100 1).satisfy sqrtTable meshPair).findNode 0).x +
          (((Link.mk 0 1 100 1).satisfy sqrtTable meshPair).findNode 1).x) / 2
        = ((meshPair.findNode 0).x + (meshPair.findNode 1).x) / 2 ∧
      ((((Link.mk 0 1 100 1).satisfy sqrtTable meshPair).findNode 0).y +
          (((Link.mk 0 1 100 1).satisfy sqrtTable meshPair).findNode 1).y) / 2
        = ((meshPair.findNode 0).y + (meshPair.findNode 1).y) / 2 :=
  link_satisfy_midpoint sqrtTable meshPair (Link.mk 0 1 100 1) (by decide) (by decide)
    (by decide) (by decide) (by decide)

/-! ## Structural facts about `removeNode` -/

theorem removeNodeFuel_succ_eq (fuel i : ℕ) (s : Mesh) :
    removeNodeFuel (fuel + 1) i s
      = (connectedIds s.links i).foldl (removeStep fuel) (s.purgeNode i) := rfl

/-- The shrink order: every collection of the second mesh is a sublist of
the corresponding collection of the first. -/
def shrinksTo (t s : Mesh) : Prop :=
  t.nodes.Sublist s.nodes ∧ t.links.Sublist s.links ∧
    t.angleConstraints.Sublist s.angleConstraints

theorem shrinksTo_refl (s : Mesh) : shrinksTo s s :=
  ⟨List.Sublist.refl _, List.Sublist.refl _, List.Sublist.refl _⟩

theorem shrinksTo_trans {a b c : Mesh} (h1 : shrinksTo a b) (h2 : shrinksTo b c) :
    shrinksTo a c :=
  ⟨h1.1.trans h2.1, h1.2.1.trans h2.2.1, h1.2.2.trans h2.2.2⟩

theorem purgeNode_shrinksTo (s : Mesh) (i : ℕ) : shrinksTo (s.purgeNode i) s :=
  ⟨List.eraseP_sublist _, List.filter_sublist _, List.filter_sublist _⟩

theorem removeNodeFuel_shrinksTo :
    ∀ (fuel i : ℕ) (s : Mesh), shrinksTo (removeNodeFuel fuel i s) s := by
  intro fuel
  induction fuel with
  | zero => intro i s; exact shrinksTo_refl s
  | succ fuel ih =>
    intro i s
    have hfold : ∀ (cs : List ℕ) (t : Mesh), shrinksTo (cs.foldl (removeStep fuel) t) t := by
      intro cs
      induction cs with
      | nil => intro t; exact shrinksTo_refl t
      | cons c cs ihc =>
        intro t
        have hstep : shrinksTo (removeStep fuel t c) t := by
          unfold removeStep
          split
          · exact ih c t
          · exact shrinksTo_refl t
        exact shrinksTo_trans (ihc (removeStep fuel t c)) hstep
    exact shrinksTo_trans (hfold _ _) (purgeNode_shrinksTo s i)

theorem foldl_removeStep_shrinksTo (fuel : ℕ) (cs : List ℕ) (t : Mesh) :
    shrinksTo (cs.foldl (removeStep fuel) t) t := by
  induction cs generalizing t with
  | nil => exact shrinksTo_refl t
  | cons c cs ihc =>
    have hstep : shrinksTo (removeStep fuel t c) t := by
      unfold removeStep
      split
      · exact removeNodeFuel_shrinksTo fuel c t
      · exact shrinksTo_refl t
    exact shrinksTo_trans (ihc (removeStep fuel t c)) hstep

theorem removeNodeFuel_nodes_subset {fuel i : ℕ} {s : Mesh} {x : Node}
    (hx : x ∈ (removeNodeFuel fuel i s).nodes) : x ∈ s.nodes :=
  (removeNodeFuel_shrinksTo fuel i s).1.subset hx

theorem removeNodeFuel_size_le (fuel i : ℕ) (s : Mesh) :
    (removeNodeFuel fuel i s).size ≤ s.size := by
  have h := removeNodeFuel_shrinksTo fuel i s
  have h1 := h.1.length_le
  have h2 := h.2.1.length_le
  unfold Mesh.size
  omega

theorem removeNodeFuel_ids_sublist (fuel i : ℕ) (s : Mesh) :
    (removeNodeFuel fuel i s).ids.Sublist s.ids :=
  (removeNodeFuel_shrinksTo fuel i s).1.map Node.id

theorem removeNodeFuel_ids_nodup (fuel i : ℕ) (s : Mesh) (h : s.ids.Nodup) :
    (removeNodeFuel fuel i s).ids.Nodup :=
  h.sublist (removeNodeFuel_ids_sublist fuel i s)

theorem ids_purgeNode (s : Mesh) (i : ℕ) : (s.purgeNode i).ids = s.ids.erase i := by
  show (s.nodes.eraseP (fun nd => nd.id == i)).map Node.id = (s.nodes.map Node.id).erase i
  rw [List.erase_eq_eraseP', List.eraseP_map]
  rfl

theorem not_mem_ids_purgeNode {s : Mesh} (i : ℕ) (hnd : s.ids.Nodup) :
    i ∉ (s.purgeNode i).ids := by
  rw [ids_purgeNode]
  exact hnd.not_mem_erase

theorem connectedIds_eq_nil_iff {links : List Link} {i : ℕ} :
    connectedIds links i = [] ↔ ∀ l ∈ links, l.a ≠ i ∧ l.b ≠ i := by
  unfold connectedIds
  rw [List.filterMap_eq_nil_iff]
  constructor
  · intro h l hl
    have hfl := h l hl
    by_cases ha : l.a = i
    · simp [ha] at hfl
    · by_cases hb : l.b = i
      · simp [ha, hb] at hfl
      · exact ⟨ha, hb⟩
  · intro h l hl
    obtain ⟨ha, hb⟩ := h l hl
    simp [ha, hb]

theorem mem_connectedIds {links : List Link} {i x : ℕ} :
    x ∈ connectedIds links i
      ↔ ∃ l ∈ links, (l.a = i ∧ l.b = x) ∨ (l.a ≠ i ∧ l.b = i ∧ l.a = x) := by
  unfold connectedIds
  rw [List.mem_filterMap]
  constructor
  · rintro ⟨l, hl, hfx⟩
    by_cases ha : l.a = i
    · refine ⟨l, hl, Or.inl ⟨ha, ?_⟩⟩
      simp [ha] at hfx
      exact hfx
    · by_cases hb : l.b = i
      · refine ⟨l, hl, Or.inr ⟨ha, hb, ?_⟩⟩
        simp [ha, hb] at hfx
        exact hfx
      · simp [ha, hb] at hfx
  · rintro ⟨l, hl, hcase⟩
    refine ⟨l, hl, ?_⟩
    rcases hcase with ⟨ha, hb⟩ | ⟨hna, hb, ha⟩
    · simp [ha, hb]
    · simp [hna, hb, ha]
      tauto

theorem purgeNode_links_of_nil {s : Mesh} {i : ℕ}
    (h : ∀ l ∈ s.links, l.a ≠ i ∧ l.b ≠ i) : (s.purgeNode i).links = s.links := by
  apply List.filter_eq_self.mpr
  intro l hl
  simp [(h l hl).1, (h l hl).2]

theorem purgeNode_links_lt {s : Mesh} {i : ℕ} (h : connectedIds s.links i ≠ []) :
    (s.purgeNode i).links.length < s.links.length := by
  show (s.links.filter _).length < s.links.length
  rw [List.length_filter_lt_length_iff_exists]
  have hex : ¬∀ l ∈ s.links, l.a ≠ i ∧ l.b ≠ i := fun hall =>
    h (connectedIds_eq_nil_iff.mpr hall)
  push_neg at hex
  obtain ⟨l, hl, hli⟩ := hex
  refine ⟨l, hl, ?_⟩
  by_cases ha : l.a = i
  · simp [ha]
  · have hb : l.b = i := by tauto
    simp [hb]

theorem linkCount_purgeNode_eq {s : Mesh} {i x : ℕ} (hxi : x ≠ i)
    (hconn : x ∉ connectedIds s.links i) :
    (s.purgeNode i).linkCount x = s.linkCount x := by
  show (((s.links.filter _).filter _)).length = _
  rw [List.filter_filter]
  apply congrArg List.length
  apply List.filter_congr
  intro l hl
  by_cases hax : l.a = x
  · have hai : l.a ≠ i := by rw [hax]; exact hxi
    have hbi : l.b ≠ i := by
      intro hbi
      exact hconn (mem_connectedIds.mpr ⟨l, hl, Or.inr ⟨hai, hbi, hax⟩⟩)
    simp [hax, hai, hbi, hxi]
  · by_cases hbx : l.b = x
    · have hbi : l.b ≠ i := by rw [hbx]; exact hxi
      have hai : l.a ≠ i := by
        intro hai
        exact hconn (mem_connectedIds.mpr ⟨l, hl, Or.inl ⟨hai, hbx⟩⟩)
      simp [hbx, hai, hbi, hxi]
    · simp [hax, hbx]

theorem removeNodeFuel_clears {fuel : ℕ} (hf : 1 ≤ fuel) (i : ℕ) (s : Mesh)
    (hnd : s.ids.Nodup) :
    i ∉ (removeNodeFuel fuel i s).ids ∧
      (∀ l ∈ (removeNodeFuel fuel i s).links, l.a ≠ i ∧ l.b ≠ i) ∧
      (∀ t ∈ (removeNodeFuel fuel i s).angleConstraints, t.a ≠ i ∧ t.b ≠ i ∧ t.c ≠ i) := by
  obtain ⟨fuel, rfl⟩ : ∃ f, fuel = f + 1 := ⟨fuel - 1, by omega⟩
  rw [removeNodeFuel_succ_eq]
  have hshr := foldl_removeStep_shrinksTo fuel (connectedIds s.links i) (s.purgeNode i)
  refine ⟨?_, ?_, ?_⟩
  · intro hmem
    apply not_mem_ids_purgeNode i hnd
    exact (hshr.1.map Node.id).subset hmem
  · intro l hl
    have hl' : l ∈ (s.purgeNode i).links := hshr.2.1.subset hl
    have := List.of_mem_filter hl'
    simpa using this
  · intro t ht
    have ht' : t ∈ (s.purgeNode i).angleConstraints := hshr.2.2.subset ht
    have hp : (t.a ≠ i ∧ t.b ≠ i) ∧ t.c ≠ i := by simpa using List.of_mem_filter ht'
    exact ⟨hp.1.1, hp.1.2, hp.2⟩

theorem removeNodeFuel_absent {s : Mesh} {i : ℕ} (fuel : ℕ)
    (hid : i ∉ s.ids) (hl : ∀ l ∈ s.links, l.a ≠ i ∧ l.b ≠ i)
    (hang : ∀ t ∈ s.angleConstraints, t.a ≠ i ∧ t.b ≠ i ∧ t.c ≠ i) :
    removeNodeFuel (fuel + 1) i s = s := by
  rw [removeNodeFuel_succ_eq, connectedIds_eq_nil_iff.mpr hl]
  show s.purgeNode i = s
  unfold Mesh.purgeNode
  have h1 : s.links.filter (fun l => !(l.a == i) && !(l.b == i)) = s.links :=
    List.filter_eq_self.mpr (fun l hl' => by simp [(hl l hl').1, (hl l hl').2])
  have h2 : s.angleConstraints.filter (fun t => !(t.a == i) && !(t.b == i) && !(t.c == i))
      = s.angleConstraints :=
    List.filter_eq_self.mpr (fun t ht' => by
      simp [(hang t ht').1, (hang t ht').2.1, (hang t ht').2.2])
  have h3 : s.nodes.eraseP (fun nd => nd.id == i) = s.nodes :=
    List.eraseP_of_forall_not (fun nd hnd' => by
      have : nd.id ≠ i := fun e => hid (e ▸ List.mem_map_of_mem Node.id hnd')
      simp [this])
  rw [h1, h2, h3]

/-- **C3.**  Removing the same node twice is safe and idempotent: the first
`removeNode` leaves no node, link or angle constraint referencing the
removed id, so the second call finds an empty `connectedNodes` list, filters
nothing, `indexOf` returns `-1`, and the state is returned exactly
unchanged.  (No exception can arise: the model is a total function, as is
the source, whose only operations are `filter`, `indexOf`/`splice` and an
empty loop.) -/
theorem removeNode_idem (s : Mesh) (i : ℕ) (hnd : s.ids.Nodup) :
    (s.removeNode i).removeNode i = s.removeNode i := by
  obtain ⟨hid, hl, hang⟩ := @removeNodeFuel_clears (s.size + 1) (by omega) i s hnd
  exact removeNodeFuel_absent _ hid hl hang

theorem refIntegrity_purgeNode (s : Mesh) (i : ℕ) (h : s.refIntegrity) :
    (s.purgeNode i).refIntegrity := by
  obtain ⟨hlinks, hangs⟩ := h
  constructor
  · intro l hl
    have hmem : l ∈ s.links := List.mem_of_mem_filter hl
    have hpred : l.a ≠ i ∧ l.b ≠ i := by simpa using List.of_mem_filter hl
    obtain ⟨⟨na, hna, hnaid⟩, nb, hnb, hnbid⟩ := hlinks l hmem
    refine ⟨⟨na, ?_, hnaid⟩, nb, ?_, hnbid⟩
    · exact (List.mem_eraseP_of_neg (by simp [hnaid, hpred.1])).mpr hna
    · exact (List.mem_eraseP_of_neg (by simp [hnbid, hpred.2])).mpr hnb
  · intro t ht
    have hmem : t ∈ s.angleConstraints := List.mem_of_mem_filter ht
    have hpred : (t.a ≠ i ∧ t.b ≠ i) ∧ t.c ≠ i := by simpa using List.of_mem_filter ht
    obtain ⟨⟨na, hna, hnaid⟩, ⟨nb, hnb, hnbid⟩, nc, hnc, hncid⟩ := hangs t hmem
    refine ⟨⟨na, ?_, hnaid⟩, ⟨nb, ?_, hnbid⟩, nc, ?_, hncid⟩
    · exact (List.mem_eraseP_of_neg (by simp [hnaid, hpred.1.1])).mpr hna
    · exact (List.mem_eraseP_of_neg (by simp [hnbid, hpred.1.2])).mpr hnb
    · exact (List.mem_eraseP_of_neg (by simp [hncid, hpred.2])).mpr hnc

theorem removeNodeFuel_refIntegrity :
    ∀ (fuel i : ℕ) (s : Mesh), s.refIntegrity → (removeNodeFuel fuel i s).refIntegrity := by
  intro fuel
  induction fuel with
  | zero => intro i s h; exact h
  | succ fuel ih =>
    intro i s h
    rw [removeNodeFuel_succ_eq]
    have hfold : ∀ (cs : List ℕ) (t : Mesh), t.refIntegrity →
        (cs.foldl (removeStep fuel) t).refIntegrity := by
      intro cs
      induction cs with
      | nil => intro t ht; exact ht
      | cons c cs ihc =>
        intro t ht
        apply ihc
        unfold removeStep
        split
        · exact ih c t ht
        · exact ht
    exact hfold _ _ (refIntegrity_purgeNode s i h)

/-- **C10.**  `removeNode` preserves referential integrity: if every link
endpoint and every angle-constraint reference named a present node before
the call, the same holds after it, cascaded removals included — each purge
drops exactly the constraints referencing the removed node, and the
surviving constraints' references survive the node erasure. -/
theorem removeNode_refIntegrity (s : Mesh) (i : ℕ) (h : s.refIntegrity) :
    (s.removeNode i).refIntegrity :=
  removeNodeFuel_refIntegrity _ i s h

theorem removeNodeFuel_count_invariant :
    ∀ (fuel i : ℕ) (s : Mesh), s.ids.Nodup → s.size < fuel →
      ∀ x ∈ (removeNodeFuel fuel i s).nodes,
        2 ≤ (removeNodeFuel fuel i s).linkCount x.id ∨
          (removeNodeFuel fuel i s).linkCount x.id = s.linkCount x.id := by
  intro fuel
  induction fuel with
  | zero => intro i s _ hsize; exact absurd hsize (Nat.not_lt_zero _)
  | succ fuel ihA =>
    have hB : ∀ (cs : List ℕ) (t : Mesh), t.ids.Nodup → t.size < fuel →
        ∀ x ∈ (cs.foldl (removeStep fuel) t).nodes,
          2 ≤ (cs.foldl (removeStep fuel) t).linkCount x.id ∨
            ((cs.foldl (removeStep fuel) t).linkCount x.id = t.linkCount x.id ∧
              x.id ∉ cs) := by
      intro cs
      induction cs with
      | nil => intro t _ _ x _; exact Or.inr ⟨rfl, by simp⟩
      | cons c cs ihc =>
        intro t hnd hsize x hx
        rw [List.foldl_cons] at hx ⊢
        by_cases hcnt : t.linkCount c < 2
        · have hstep : removeStep fuel t c = removeNodeFuel fuel c t := if_pos hcnt
          rw [hstep] at hx ⊢
          have hnd' : (removeNodeFuel fuel c t).ids.Nodup :=
            removeNodeFuel_ids_nodup fuel c t hnd
          have hsize' : (removeNodeFuel fuel c t).size < fuel :=
            lt_of_le_of_lt (removeNodeFuel_size_le fuel c t) hsize
          rcases ihc (removeNodeFuel fuel c t) hnd' hsize' x hx with h2 | ⟨heq, hnotin⟩
          · exact Or.inl h2
          · have hxt' : x ∈ (removeNodeFuel fuel c t).nodes :=
              (foldl_removeStep_shrinksTo fuel cs (removeNodeFuel fuel c t)).1.subset hx
            have hfz : 1 ≤ fuel := by omega
            have hxc : x.id ≠ c := by
              intro hxeq
              have hmm : x.id ∈ (removeNodeFuel fuel c t).ids :=
                List.mem_map_of_mem Node.id hxt'
              rw [hxeq] at hmm
              exact (removeNodeFuel_clears hfz c t hnd).1 hmm
            rcases ihA c t hnd hsize x hxt' with h2' | heq'
            · exact Or.inl (by rw [heq]; exact h2')
            · refine Or.inr ⟨heq.trans heq', ?_⟩
              intro hmem
              rcases List.mem_cons.mp hmem with h | h
              · exact hxc h
              · exact hnotin h
        · have hstep : removeStep fuel t c = t := if_neg hcnt
          rw [hstep] at hx ⊢
          rcases ihc t hnd hsize x hx with h2 | ⟨heq, hnotin⟩
          · exact Or.inl h2
          · by_cases hxc : x.id = c
            · left
              rw [heq, hxc]
              omega
            · refine Or.inr ⟨heq, ?_⟩
              intro hmem
              rcases List.mem_cons.mp hmem with h | h
              · exact hxc h
              · exact hnotin h
    intro i s hnd hsize x hx
    rw [removeNodeFuel_succ_eq] at hx ⊢
    by_cases hconn : connectedIds s.links i = []
    · rw [hconn, List.foldl_nil] at hx ⊢
      right
      have hlinks : (s.purgeNode i).links = s.links :=
        purgeNode_links_of_nil (connectedIds_eq_nil_iff.mp hconn)
      unfold Mesh.linkCount
      rw [hlinks]
    · have hnd1 : (s.purgeNode i).ids.Nodup := by
        rw [ids_purgeNode]
        exact hnd.erase i
      have hsize1 : (s.purgeNode i).size < fuel := by
        have h1 := purgeNode_links_lt (s := s) (i := i) hconn
        have h2 : (s.purgeNode i).nodes.length ≤ s.nodes.length :=
          (List.eraseP_sublist _).length_le
        unfold Mesh.size at hsize ⊢
        omega
      rcases hB (connectedIds s.links i) (s.purgeNode i) hnd1 hsize1 x hx with h2 | ⟨heq, hnotin⟩
      · exact Or.inl h2
      · right
        have hxpurge : x ∈ (s.purgeNode i).nodes :=
          (foldl_removeStep_shrinksTo fuel (connectedIds s.links i) (s.purgeNode i)).1.subset hx
        have hxi : x.id ≠ i := by
          intro hxeq
          have hmm : x.id ∈ (s.purgeNode i).ids := List.mem_map_of_mem Node.id hxpurge
          rw [hxeq] at hmm
          exact not_mem_ids_purgeNode i hnd hmm
        rw [heq]
        exact linkCount_purgeNode_eq hxi hnotin

/-- **C2.**  After `removeNode` completes — cascades included — every
remaining node either has at least 2 remaining links or already had fewer
than 2 before the removal began; in particular, if every node of the
pre-removal graph had at least 2 links, no remaining node is left with
fewer than 2. -/
theorem removeNode_cascade_invariant (s : Mesh) (i : ℕ) (hnd : s.ids.Nodup) :
    (∀ x ∈ (s.removeNode i).nodes,
        2 ≤ (s.removeNode i).linkCount x.id ∨ s.linkCount x.id < 2) ∧
      ((∀ x ∈ s.nodes, 2 ≤ s.linkCount x.id) →
        ∀ x ∈ (s.removeNode i).nodes, 2 ≤ (s.removeNode i).linkCount x.id) := by
  unfold Mesh.removeNode
  have hmain := removeNodeFuel_count_invariant (s.size + 1) i s hnd (by omega)
  constructor
  · intro x hx
    rcases hmain x hx with h2 | heq
    · exact Or.inl h2
    · rcases lt_or_le (s.linkCount x.id) 2 with hlt | hge
      · exact Or.inr hlt
      · left
        rw [heq]
        exact hge
  · intro hall x hx
    rcases hmain x hx with h2 | heq
    · exact h2
    · rw [heq]
      exact hall x (removeNodeFuel_nodes_subset hx)

/-! ## `getNearestNodes` -/

theorem pair_sublist_of_mem {α : Type} {l : List α} {u v : α} (hu : u ∈ l) (hv : v ∈ l)
    (hne : u ≠ v) : [u, v].Sublist l ∨ [v, u].Sublist l := by
  induction l with
  | nil => cases hu
  | cons c l ih =>
    rcases List.mem_cons.mp hu with rfl | hu'
    · left
      have hv' : v ∈ l := by
        rcases List.mem_cons.mp hv with h | h
        · exact absurd h.symm hne
        · exact h
      exact List.cons_sublist_cons.mpr (List.singleton_sublist.mpr hv')
    · rcases List.mem_cons.mp hv with rfl | hv'
      · right
        exact List.cons_sublist_cons.mpr (List.singleton_sublist.mpr hu')
      · rcases ih hu' hv' with h | h
        · exact Or.inl (h.cons c)
        · exact Or.inr (h.cons c)

theorem sublist_pair_antisymm {α : Type} {l : List α} {a b : α} (hnd : l.Nodup)
    (h1 : [a, b].Sublist l) (h2 : [b, a].Sublist l) : a = b := by
  induction l with
  | nil => cases h1
  | cons c l ih =>
    have hndl : l.Nodup := hnd.of_cons
    have hc : c ∉ l := (List.nodup_cons.mp hnd).1
    cases h1 with
    | cons _ h1' =>
      cases h2 with
      | cons _ h2' => exact ih hndl h1' h2'
      | cons₂ _ h2' =>
        exact absurd (h1'.subset (by simp)) hc
    | cons₂ _ h1' =>
      cases h2 with
      | cons _ h2' =>
        exact absurd (h2'.subset (by simp)) hc
      | cons₂ _ h2' => rfl

/-- **C9.**  `getNearestNodes(x, y, k)` returns the `k` nodes nearest to the
query point by squared Euclidean distance: (1) the result has length
`min k n` (so an oversized `k` yields everything available, never an
error); (2) it is ordered by ascending squared distance; (3) it is, with
some remainder, a permutation of the node list, and every returned node is
at least as near as every omitted one; (4) returned nodes at equal distance
appear in their original storage order (the ECMAScript sort is stable);
(5) when `k ≥ n` the result is a permutation of the whole node list. -/
theorem getNearestNodes_spec (s : Mesh) (x y : ℚ) (k : ℕ) (hnd : s.ids.Nodup) :
    (s.getNearestNodes x y k).length = min k s.nodes.length ∧
      (s.getNearestNodes x y k).Pairwise (fun u v => dist2 x y u ≤ dist2 x y v) ∧
      (∃ rest, (s.getNearestNodes x y k ++ rest).Perm s.nodes ∧
        ∀ u ∈ s.getNearestNodes x y k, ∀ v ∈ rest, dist2 x y u ≤ dist2 x y v) ∧
      (∀ u v : Node, [u, v].Sublist (s.getNearestNodes x y k) →
        dist2 x y u = dist2 x y v → [u, v].Sublist s.nodes) ∧
      (s.nodes.length ≤ k → (s.getNearestNodes x y k).Perm s.nodes) := by
  haveI instTr : IsTrans (Node × ℚ) (fun p q => p.2 ≤ q.2) :=
    ⟨fun a b c hab hbc => le_trans hab hbc⟩
  haveI instTo : IsTotal (Node × ℚ) (fun p q => p.2 ≤ q.2) :=
    ⟨fun a b => le_total a.2 b.2⟩
  have hvnd : s.nodes.Nodup := List.Nodup.of_map Node.id hnd
  have hres : s.getNearestNodes x y k =
      (((s.nodes.map (fun n => (n, dist2 x y n))).insertionSort
          (fun p q => p.2 ≤ q.2)).take k).map (fun item => item.1) := rfl
  have hperm : ((s.nodes.map (fun n => (n, dist2 x y n))).insertionSort
      (fun p q => p.2 ≤ q.2)).Perm (s.nodes.map (fun n => (n, dist2 x y n))) :=
    List.perm_insertionSort _ _
  have hsorted := List.sorted_insertionSort (fun p q : Node × ℚ => p.2 ≤ q.2)
    (s.nodes.map (fun n => (n, dist2 x y n)))
  have hkey : ∀ p ∈ (s.nodes.map (fun n => (n, dist2 x y n))).insertionSort
      (fun p q => p.2 ≤ q.2), p.2 = dist2 x y p.1 := by
    intro p hp
    have hp' : p ∈ s.nodes.map (fun n => (n, dist2 x y n)) := hperm.subset hp
    obtain ⟨n, _, rfl⟩ := List.mem_map.mp hp'
    rfl
  have hfst : (((s.nodes.map (fun n => (n, dist2 x y n))).insertionSort
      (fun p q => p.2 ≤ q.2)).map (fun item : Node × ℚ => item.1)).Perm s.nodes := by
    have h1 := hperm.map (fun item : Node × ℚ => item.1)
    rw [List.map_map] at h1
    rwa [show ((fun item : Node × ℚ => item.1) ∘ fun n => (n, dist2 x y n)) = id from rfl,
      List.map_id] at h1
  have hLnd : ((s.nodes.map (fun n => (n, dist2 x y n))).insertionSort
      (fun p q => p.2 ≤ q.2)).Nodup := by
    rw [hperm.nodup_iff]
    exact List.Nodup.map (fun a b h => congrArg Prod.fst h) hvnd
  refine ⟨?_, ?_, ?_, ?_, ?_⟩
  · rw [hres, List.length_map, List.length_take, List.length_insertionSort, List.length_map]
  · rw [hres, List.pairwise_map]
    have h1 := List.Pairwise.sublist (List.take_sublist k _) hsorted
    apply List.Pairwise.imp_of_mem ?_ h1
    intro p q hp hq hpq
    have hp2 := hkey p ((List.take_sublist k _).subset hp)
    have hq2 := hkey q ((List.take_sublist k _).subset hq)
    rw [← hp2, ← hq2]
    exact hpq
  · refine ⟨(((s.nodes.map (fun n => (n, dist2 x y n))).insertionSort
        (fun p q => p.2 ≤ q.2)).drop k).map (fun item => item.1), ?_, ?_⟩
    · rw [hres, ← List.map_append, List.take_append_drop]
      exact hfst
    · intro u hu v hv
      rw [hres] at hu
      obtain ⟨p, hp, rfl⟩ := List.mem_map.mp hu
      obtain ⟨q, hq, rfl⟩ := List.mem_map.mp hv
      have hr : p.2 ≤ q.2 := hsorted.rel_of_mem_take_of_mem_drop hp hq
      have hp2 := hkey p ((List.take_sublist k _).subset hp)
      have hq2 := hkey q ((List.drop_sublist k _).subset hq)
      rw [← hp2, ← hq2]
      exact hr
  · intro u v huv heq
    rw [hres] at huv
    obtain ⟨l', hl', hmap⟩ := List.sublist_map_iff.mp huv
    rcases l' with _ | ⟨p, _ | ⟨q, _ | ⟨w, l''⟩⟩⟩ <;> simp at hmap
    obtain ⟨hu, hv⟩ := hmap
    subst hu
    subst hv
    have hpSL : [p, q].Sublist ((s.nodes.map (fun n => (n, dist2 x y n))).insertionSort
        (fun p q => p.2 ≤ q.2)) := hl'.trans (List.take_sublist k _)
    have hpmem : p ∈ (s.nodes.map (fun n => (n, dist2 x y n))).insertionSort
        (fun p q => p.2 ≤ q.2) := hpSL.subset (by simp)
    have hqmem : q ∈ (s.nodes.map (fun n => (n, dist2 x y n))).insertionSort
        (fun p q => p.2 ≤ q.2) := hpSL.subset (by simp)
    have hp2 := hkey p hpmem
    have hq2 := hkey q hqmem
    have hun : p.1 ∈ s.nodes := by
      have hm : p.1 ∈ ((s.nodes.map (fun n => (n, dist2 x y n))).insertionSort
          (fun p q => p.2 ≤ q.2)).map (fun item : Node × ℚ => item.1) :=
        List.mem_map_of_mem _ hpmem
      exact hfst.subset hm
    have hvn : q.1 ∈ s.nodes := by
      have hm : q.1 ∈ ((s.nodes.map (fun n => (n, dist2 x y n))).insertionSort
          (fun p q => p.2 ≤ q.2)).map (fun item : Node × ℚ => item.1) :=
        List.mem_map_of_mem _ hqmem
      exact hfst.subset hm
    have hpq : p ≠ q := by
      have h2 := hLnd.sublist hpSL
      simp only [List.nodup_cons, List.mem_singleton] at h2
      exact h2.1
    have huvne : p.1 ≠ q.1 := by
      intro h
      apply hpq
      have h2 : p.2 = q.2 := by rw [hp2, hq2, h]
      exact Prod.ext h h2
    rcases pair_sublist_of_mem hun hvn huvne with hgood | hbad
    · exact hgood
    · exfalso
      have hmapsub : [(q.1, dist2 x y q.1), (p.1, dist2 x y p.1)].Sublist
          (s.nodes.map (fun n => (n, dist2 x y n))) := by
        have h3 := hbad.map (fun n => (n, dist2 x y n))
        simpa using h3
      have hqeq : q = (q.1, dist2 x y q.1) := Prod.ext rfl hq2
      have hpeq : p = (p.1, dist2 x y p.1) := Prod.ext rfl hp2
      rw [← hqeq, ← hpeq] at hmapsub
      have hpair : [q, p].Pairwise (fun p q : Node × ℚ => p.2 ≤ q.2) :=
        List.pairwise_pair.mpr (le_of_eq (by rw [hp2, hq2, heq]))
      have hsl2 := List.sublist_insertionSort hpair hmapsub
      exact hpq (sublist_pair_antisymm hLnd hpSL hsl2)
  · intro hk
    rw [hres]
    have htake : ((s.nodes.map (fun n => (n, dist2 x y n))).insertionSort
        (fun p q => p.2 ≤ q.2)).take k = (s.nodes.map (fun n => (n, dist2 x y n))).insertionSort
        (fun p q => p.2 ≤ q.2) := by
      apply List.take_of_length_le
      rw [List.length_insertionSort, List.length_map]
      exact hk
    rw [htake]
    exact hfst

/-- Witness for `getNearestNodes_spec`, evaluated on `meshRing`. -/
theorem getNearestNodes_spec_witness :
    (meshRing.getNearestNodes 10 10 2).length = min 2 meshRing.nodes.length ∧
      (meshRing.getNearestNodes 10 10 9).Perm meshRing.nodes :=
  ⟨(getNearestNodes_spec meshRing 10 10 2 (by decide)).1,
    (getNearestNodes_spec meshRing 10 10 9 (by decide)).2.2.2.2 (by decide)⟩

/-- Witness for `removeNode_cascade_invariant`, evaluated on `meshRing`:
node 1 survives the removal of node 0 with 2 links left. -/
theorem removeNode_cascade_invariant_witness :
    2 ≤ (meshRing.removeNode 0).linkCount 1 ∨ meshRing.linkCount 1 < 2 :=
  (removeNode_cascade_invariant meshRing 0 (by decide)).1
    ⟨1, 100, 0, 100, 0, 0, 0, 8, 15, false⟩ (by decide)

/-- Witness for `removeNode_idem`, evaluated on `meshRing`. -/
theorem removeNode_idem_witness :
    (meshRing.removeNode 0).removeNode 0 = meshRing.removeNode 0 :=
  removeNode_idem meshRing 0 (by decide)

/-- Witness for `removeNode_refIntegrity`, evaluated on `meshRing`. -/
theorem removeNode_refIntegrity_witness : (meshRing.removeNode 0).refIntegrity :=
  removeNode_refIntegrity meshRing 0 (by
    constructor
    · intro l hl
      fin_cases hl <;> exact ⟨by decide, by decide⟩
    · intro t ht
      fin_cases ht
      exact ⟨by decide, by decide, by decide⟩)

/-- Witness for `gravity_phase_acceleration`, evaluated on `meshPair`. -/
theorem gravity_phase_acceleration_witness :
    ∃ n', meshPair.applyGravity.nodes[0]? = some n'
      ∧ n'.ax = meshPair.gravityX ∧ n'.ay = meshPair.gravityY ∧ n'.pinned = false
      ∧ n'.x = (0 : ℚ) ∧ n'.y = (0 : ℚ) :=
  gravity_phase_acceleration meshPair 0 ⟨0, 0, 0, 0, 0, 0, 0, 8, 15, false⟩ (by decide) rfl rfl
    rfl (by decide)

end WebGoo
